import Mathlib

/-!
# samza-checkpoint-tool: checkpoint snapshots, filter, merge, topic drain, file codec

A shallow embedding of `checkpoint_tool.go`.

* A Go `map[K]V` is a list of entries with pairwise distinct keys (`GoMap`); the
  order of the entries stands for the (unspecified) iteration order of the Go map,
  so a statement proved for every `GoMap` holds for every iteration order.  A nil
  map and an empty map have the same entries and are not told apart.
* A Go `string` is a `String`, a `[]byte` holding text is a `List Char`.
* `json.Marshal` and `json.Unmarshal` are modelled for `Key`, `Checkpoint` and
  `PartitionStreams`; a non-nil `error` is `none`.
* The channel of the partition consumer is the list of the messages it delivers; a loop
  that has received all of them without reaching `break` is waiting on the channel.
* A file is its content; `bufio.Scanner` cuts it into lines and gives up on a line of
  `bufio.MaxScanTokenSize` bytes or more.  `log.Fatal` and a runtime panic end the read
  with an error value.
-/

namespace CheckpointTool

/-! ## Go maps -/

/-- The entries of a Go `map[K]V` : pairwise distinct keys, in iteration order. -/
structure GoMap (K V : Type) where
  entries : List (K × V)
  nodup : (entries.map Prod.fst).Nodup

namespace GoMap

variable {K V : Type}

/-- Go `m[k]` with the `ok` flag, on the entry list. -/
def lookupList [DecidableEq K] (k : K) : List (K × V) → Option V
  | [] => none
  | e :: rest => if e.1 = k then some e.2 else lookupList k rest

/-- Go `m[k] = v` on the entry list : overwrite the entry of `k`, or add one. -/
def insertList [DecidableEq K] (k : K) (v : V) : List (K × V) → List (K × V)
  | [] => [(k, v)]
  | e :: rest => if e.1 = k then (k, v) :: rest else e :: insertList k v rest

/-- Go `make(map[K]V)`. -/
def empty : GoMap K V := ⟨[], List.nodup_nil⟩

/-- The keys, in iteration order. -/
def keys (m : GoMap K V) : List K := m.entries.map Prod.fst

/-- Go `len(m)`. -/
def len (m : GoMap K V) : Nat := m.entries.length

/-- Go `v, ok := m[k]`. -/
def lookup [DecidableEq K] (m : GoMap K V) (k : K) : Option V := lookupList k m.entries

/-- Go `m[k] = v`. -/
def insert [DecidableEq K] (m : GoMap K V) (k : K) (v : V) : GoMap K V :=
  ⟨insertList k v m.entries, by
    have keysEq : ∀ l : List (K × V), (insertList k v l).map Prod.fst =
        if k ∈ l.map Prod.fst then l.map Prod.fst else l.map Prod.fst ++ [k] := by
      intro l
      induction l with
      | nil => simp [insertList]
      | cons e rest ih =>
        by_cases h : e.1 = k
        · simp [insertList, h]
        · have h2 : ¬ k = e.1 := fun h3 => h h3.symm
          simp only [insertList, h, if_false, List.map_cons, ih, List.mem_cons, h2, false_or]
          split <;> simp
    rw [keysEq]
    split
    · exact m.nodup
    · rename_i hk
      rw [List.nodup_append]
      refine ⟨m.nodup, List.nodup_singleton k, ?_⟩
      intro a ha hb
      simp only [List.mem_singleton] at hb
      exact hk (hb ▸ ha)⟩

instance [DecidableEq K] [DecidableEq V] : DecidableEq (GoMap K V) := fun a b =>
  match a, b with
  | ⟨ea, _⟩, ⟨eb, _⟩ =>
    if h : ea = eb then isTrue (by subst h; rfl)
    else isFalse (fun h2 => h (by cases h2; rfl))

end GoMap

/-! ## Data model -/

/-- Go `type Key struct` : the identity of a task. -/
structure Key where
  GrouperFactory : String
  TaskName : String
  Type_ : String
  deriving DecidableEq, Repr

/-- Go `type Checkpoint struct` : one offset record. -/
structure Checkpoint where
  System : String
  Partition : String
  Offset : String
  Stream : String
  deriving DecidableEq, Repr

/-- The zero value of `Checkpoint`, which a Go map lookup yields for a missing key. -/
instance : Inhabited Checkpoint := ⟨⟨"", "", "", ""⟩⟩

/-- Go `type PartitionStreams map[string]Checkpoint`. -/
abbrev PartitionStreams := GoMap String Checkpoint

/-- Go `type Checkpoints map[Key]PartitionStreams`. -/
abbrev Checkpoints := GoMap Key PartitionStreams

/-- Go `streams[streamKey]` : the value, or the zero value when the key is missing. -/
def streamAt (streams : PartitionStreams) (streamKey : String) : Checkpoint :=
  (streams.lookup streamKey).getD default

/-- Go `checkpoints[key]` : the value, or the zero value (a map without entries). -/
def streamsAt (checkpoints : Checkpoints) (key : Key) : PartitionStreams :=
  (checkpoints.lookup key).getD GoMap.empty

/-! ## List helpers -/

/-- Go `has` : linear search for `a` in `list`. -/
def has (a : String) : List String → Bool
  | [] => false
  | b :: rest => if b = a then true else has a rest

/-- Go `hasOrEmpty`. -/
def hasOrEmpty (a : String) (list : List String) : Bool :=
  list.length == 0 || has a list

/-- Go `hasNoOrEmpty`. -/
def hasNoOrEmpty (a : String) (list : List String) : Bool :=
  list.length == 0 || !has a list

/-! ## Filter, clone, merge -/

/-- The inner loop of `filterCheckpoints` over the stream keys of one task. -/
def filterStreams (streams : PartitionStreams) (includeList excludeList : List String) :
    PartitionStreams :=
  streams.keys.foldl
    (fun filteredStreams streamKey =>
      let stream := streamAt streams streamKey
      let streamTopic := stream.Stream
      if hasOrEmpty streamTopic includeList && hasNoOrEmpty streamTopic excludeList then
        filteredStreams.insert streamKey stream
      else filteredStreams)
    GoMap.empty

/-- Go `filterCheckpoints`. -/
def filterCheckpoints (checkpoints : Checkpoints) (includeList excludeList : List String) :
    Checkpoints :=
  checkpoints.keys.foldl
    (fun filtered key =>
      let streams := streamsAt checkpoints key
      filtered.insert key (filterStreams streams includeList excludeList))
    GoMap.empty

/-- Go `for streamKey, checkpoint := range src { dst[streamKey] = checkpoint }`. -/
def copyInto (dst src : PartitionStreams) : PartitionStreams :=
  src.entries.foldl (fun out e => out.insert e.1 e.2) dst

/-- Go `cloneCheckpoints`. -/
def cloneCheckpoints (source : Checkpoints) : Checkpoints :=
  source.entries.foldl (fun out e => out.insert e.1 (copyInto GoMap.empty e.2)) GoMap.empty

/-- Go `mergeCheckpoints`. -/
def mergeCheckpoints (checkpoints patch : Checkpoints) : Checkpoints :=
  patch.keys.foldl
    (fun merged key =>
      let patchStreams := streamsAt patch key
      if patchStreams.len = 0 then merged
      else if (checkpoints.lookup key).isSome then
        merged.insert key (copyInto (streamsAt merged key) patchStreams)
      else merged.insert key patchStreams)
    (cloneCheckpoints checkpoints)

/-! ## The JSON codec of `encoding/json`, for the types of this program

Text is a list of Unicode scalar values, so the byte strings of the program are taken to be
valid UTF-8; `encoding/json` itself replaces any invalid byte by U+FFFD in both directions.
The nesting limit of later Go versions is not modelled. -/

/-- A parsed JSON value.  Numbers, booleans and arrays keep no payload : for the types of
this program they only ever yield a type error or are skipped. -/
inductive JValue where
  | null
  | bool
  | number
  | string (s : List Char)
  | array
  | object (members : List (List Char × JValue))

/-- Go `isSpace` of the JSON scanner. -/
def isSpace (c : Char) : Bool := c = ' ' || c = '\t' || c = '\r' || c = '\n'

/-- Drop leading JSON whitespace. -/
def skipSpace : List Char → List Char
  | [] => []
  | c :: rest => if isSpace c then skipSpace rest else c :: rest

/-- The value of a hexadecimal digit, either case. -/
def hexDigit (c : Char) : Option Nat :=
  if '0'.toNat ≤ c.toNat ∧ c.toNat ≤ '9'.toNat then some (c.toNat - '0'.toNat)
  else if 'a'.toNat ≤ c.toNat ∧ c.toNat ≤ 'f'.toNat then some (c.toNat - 'a'.toNat + 10)
  else if 'A'.toNat ≤ c.toNat ∧ c.toNat ≤ 'F'.toNat then some (c.toNat - 'A'.toNat + 10)
  else none

/-- Go `getu4` : the number written by a leading `\uXXXX`. -/
def getu4 : List Char → Option Nat
  | c0 :: c1 :: a :: b :: c :: d :: _ =>
    if c0 = '\\' ∧ c1 = 'u' then
      match hexDigit a, hexDigit b, hexDigit c, hexDigit d with
      | some a, some b, some c, some d => some (((a * 16 + b) * 16 + c) * 16 + d)
      | _, _, _, _ => none
    else none
  | _ => none

/-- The character of a one-letter escape. -/
def simpleEscape (e : Char) : Option Char :=
  if e = '"' ∨ e = '\\' ∨ e = '/' then some e
  else if e = 'b' then some (Char.ofNat 8)
  else if e = 'f' then some (Char.ofNat 12)
  else if e = 'n' then some '\n'
  else if e = 'r' then some '\r'
  else if e = 't' then some '\t'
  else none

/-- Go `utf16.IsSurrogate`. -/
def isSurrogate (r : Nat) : Bool := 0xd800 ≤ r && r < 0xe000

/-- Go `utf16.DecodeRune`, `none` standing for the replacement character of a bad pair. -/
def decodeSurrogates (r1 r2 : Nat) : Option Nat :=
  if 0xd800 ≤ r1 ∧ r1 < 0xdc00 ∧ 0xdc00 ≤ r2 ∧ r2 < 0xe000 then
    some ((r1 - 0xd800) * 1024 + (r2 - 0xdc00) + 0x10000)
  else none

/-- The Unicode replacement character U+FFFD. -/
def replacementChar : Char := Char.ofNat 0xfffd

/-- The body of a JSON string after its opening quote : the unquoted text (Go `unquote`)
and what follows the closing quote; `none` for what the scanner rejects. -/
def readString : Nat → List Char → Option (List Char × List Char)
  | 0, _ => none
  | _ + 1, [] => none
  | fuel + 1, c :: rest =>
    if c = '"' then some ([], rest)
    else if c = '\\' then
      match rest with
      | [] => none
      | e :: rest2 =>
        if e = 'u' then
          match getu4 (c :: rest) with
          | none => none
          | some rr =>
            let rest3 := rest2.drop 4
            if isSurrogate rr then
              match (getu4 rest3).bind (decodeSurrogates rr) with
              | some dec =>
                (readString fuel (rest3.drop 6)).map (fun p => (Char.ofNat dec :: p.1, p.2))
              | none => (readString fuel rest3).map (fun p => (replacementChar :: p.1, p.2))
            else (readString fuel rest3).map (fun p => (Char.ofNat rr :: p.1, p.2))
        else
          match simpleEscape e with
          | none => none
          | some ch => (readString fuel rest2).map (fun p => (ch :: p.1, p.2))
    else if c.toNat < 0x20 then none
    else (readString fuel rest).map (fun p => (c :: p.1, p.2))

/-- A decimal digit. -/
def isDigit (c : Char) : Bool := '0'.toNat ≤ c.toNat && c.toNat ≤ '9'.toNat

/-- Drop leading decimal digits. -/
def skipDigits : List Char → List Char
  | [] => []
  | c :: rest => if isDigit c then skipDigits rest else c :: rest

/-- At least one decimal digit, then the rest. -/
def digits1 : List Char → Option (List Char)
  | [] => none
  | c :: rest => if isDigit c then some (skipDigits rest) else none

/-- The optional exponent of a JSON number. -/
def readExponent : List Char → Option (List Char)
  | [] => some []
  | c :: rest =>
    if c = 'e' ∨ c = 'E' then
      match rest with
      | [] => none
      | s :: rest2 => if s = '+' ∨ s = '-' then digits1 rest2 else digits1 rest
    else some (c :: rest)

/-- The optional fraction and exponent of a JSON number. -/
def readFraction : List Char → Option (List Char)
  | [] => some []
  | c :: rest =>
    if c = '.' then (digits1 rest).bind readExponent
    else readExponent (c :: rest)

/-- A JSON number : what follows it, `none` when the text does not start with one. -/
def readNumber (s : List Char) : Option (List Char) :=
  let body := match s with
    | [] => []
    | c :: rest => if c = '-' then rest else c :: rest
  match body with
  | [] => none
  | c :: rest =>
    if c = '0' then readFraction rest
    else if isDigit c then readFraction (skipDigits rest)
    else none

/-- Strip a literal such as `true` from the front of the text. -/
def readLiteral : List Char → List Char → Option (List Char)
  | [], s => some s
  | _ :: _, [] => none
  | l :: lit, c :: rest => if c = l then readLiteral lit rest else none

/-- The members of a JSON object from its first member name on (whitespace skipped), up to
and with the closing brace; `parseValue` parses a member value. -/
def readMembers (parseValue : List Char → Option (JValue × List Char)) :
    Nat → List Char → Option (List (List Char × JValue) × List Char)
  | 0, _ => none
  | _ + 1, [] => none
  | fuel + 1, c :: rest =>
    if c = '"' then
      match readString (rest.length + 1) rest with
      | none => none
      | some (name, r2) =>
        match skipSpace r2 with
        | [] => none
        | colon :: r3 =>
          if colon = ':' then
            match parseValue (skipSpace r3) with
            | none => none
            | some (v, r4) =>
              match skipSpace r4 with
              | [] => none
              | sep :: r5 =>
                if sep = ',' then
                  (readMembers parseValue fuel (skipSpace r5)).map
                    (fun p => ((name, v) :: p.1, p.2))
                else if sep = '}' then some ([(name, v)], r5)
                else none
          else none
    else none

/-- The elements of a JSON array from its first element on (whitespace skipped), up to and
with the closing bracket. -/
def readElements (parseValue : List Char → Option (JValue × List Char)) :
    Nat → List Char → Option (List Char)
  | 0, _ => none
  | fuel + 1, s =>
    match parseValue s with
    | none => none
    | some (_, r) =>
      match skipSpace r with
      | [] => none
      | sep :: r2 =>
        if sep = ',' then readElements parseValue fuel (skipSpace r2)
        else if sep = ']' then some r2
        else none

/-- One JSON value at the front of the text (whitespace skipped), and what follows it. -/
def parseValue : Nat → List Char → Option (JValue × List Char)
  | 0, _ => none
  | _ + 1, [] => none
  | fuel + 1, c :: rest =>
    if c = '{' then
      match skipSpace rest with
      | [] => none
      | d :: r =>
        if d = '}' then some (JValue.object [], r)
        else (readMembers (parseValue fuel) (rest.length + 1) (d :: r)).map
          (fun p => (JValue.object p.1, p.2))
    else if c = '[' then
      match skipSpace rest with
      | [] => none
      | d :: r =>
        if d = ']' then some (JValue.array, r)
        else (readElements (parseValue fuel) (rest.length + 1) (d :: r)).map
          (fun r2 => (JValue.array, r2))
    else if c = '"' then
      (readString (rest.length + 1) rest).map (fun p => (JValue.string p.1, p.2))
    else if c = 't' then (readLiteral ['r', 'u', 'e'] rest).map (fun r => (JValue.bool, r))
    else if c = 'f' then
      (readLiteral ['a', 'l', 's', 'e'] rest).map (fun r => (JValue.bool, r))
    else if c = 'n' then (readLiteral ['u', 'l', 'l'] rest).map (fun r => (JValue.null, r))
    else (readNumber (c :: rest)).map (fun r => (JValue.number, r))

/-- The scanner pass of Go `json.Unmarshal` : the text is one JSON value between optional
whitespace. -/
def parseJSON (data : List Char) : Option JValue :=
  match parseValue (data.length + 1) (skipSpace data) with
  | none => none
  | some (v, rest) => if skipSpace rest = [] then some v else none

/-- The rune that the field matching of `encoding/json` folds a rune of a member name to
(Go `foldName`) : upper case for ASCII letters, `K` for the Kelvin sign, `S` for the long s;
no other rune folds to an ASCII one. -/
def foldRune (c : Char) : Char :=
  if 'a'.toNat ≤ c.toNat ∧ c.toNat ≤ 'z'.toNat then Char.ofNat (c.toNat - 32)
  else if c.toNat = 0x212a then 'K'
  else if c.toNat = 0x17f then 'S'
  else c

/-- A member name selects the struct field with this JSON name : equal up to case folding. -/
def nameMatches (fieldName : String) (name : List Char) : Bool :=
  name.map foldRune = fieldName.data.map foldRune

/-- Storing a JSON value into a Go string field : a string is stored, `null` leaves the
field as it is, anything else is an `UnmarshalTypeError`. -/
def storeString (old : String) : JValue → Option String
  | JValue.null => some old
  | JValue.string s => some (String.mk s)
  | _ => none

/-- Decoding the members of a JSON object into a `Key`, in the order of the text. -/
def decodeKeyMembers : List (List Char × JValue) → Key → Option Key
  | [], key => some key
  | (name, v) :: rest, key =>
    if nameMatches "systemstreampartition-grouper-factory" name then
      (storeString key.GrouperFactory v).bind
        (fun s => decodeKeyMembers rest { key with GrouperFactory := s })
    else if nameMatches "taskName" name then
      (storeString key.TaskName v).bind (fun s => decodeKeyMembers rest { key with TaskName := s })
    else if nameMatches "type" name then
      (storeString key.Type_ v).bind (fun s => decodeKeyMembers rest { key with Type_ := s })
    else decodeKeyMembers rest key

/-- Decoding a JSON value into a zero `Key`. -/
def decodeKey : JValue → Option Key
  | JValue.null => some ⟨"", "", ""⟩
  | JValue.object members => decodeKeyMembers members ⟨"", "", ""⟩
  | _ => none

/-- Decoding the members of a JSON object into a `Checkpoint`, in the order of the text. -/
def decodeCheckpointMembers : List (List Char × JValue) → Checkpoint → Option Checkpoint
  | [], cp => some cp
  | (name, v) :: rest, cp =>
    if nameMatches "system" name then
      (storeString cp.System v).bind (fun s => decodeCheckpointMembers rest { cp with System := s })
    else if nameMatches "partition" name then
      (storeString cp.Partition v).bind
        (fun s => decodeCheckpointMembers rest { cp with Partition := s })
    else if nameMatches "offset" name then
      (storeString cp.Offset v).bind (fun s => decodeCheckpointMembers rest { cp with Offset := s })
    else if nameMatches "stream" name then
      (storeString cp.Stream v).bind (fun s => decodeCheckpointMembers rest { cp with Stream := s })
    else decodeCheckpointMembers rest cp

/-- Decoding a JSON value into a zero `Checkpoint` (a map element). -/
def decodeCheckpoint : JValue → Option Checkpoint
  | JValue.null => some default
  | JValue.object members => decodeCheckpointMembers members default
  | _ => none

/-- Decoding the members of a JSON object into a `PartitionStreams`, in the order of the
text : a repeated member name overwrites. -/
def decodeStreamsMembers : List (List Char × JValue) → PartitionStreams → Option PartitionStreams
  | [], streams => some streams
  | (name, v) :: rest, streams =>
    (decodeCheckpoint v).bind (fun cp => decodeStreamsMembers rest (streams.insert (String.mk name) cp))

/-- Decoding a JSON value into a `PartitionStreams`. -/
def decodeStreams : JValue → Option PartitionStreams
  | JValue.null => some GoMap.empty
  | JValue.object members => decodeStreamsMembers members GoMap.empty
  | _ => none

/-- Go `unmarshallKey` : `none` stands for a non-nil error. -/
def unmarshallKey (raw : List Char) : Option Key :=
  (parseJSON raw).bind decodeKey

/-- Go `unmarshallStreams` : `none` stands for a non-nil error. -/
def unmarshallStreams (raw : List Char) : Option PartitionStreams :=
  (parseJSON raw).bind decodeStreams

/-- A hexadecimal digit of the encoder, lower case. -/
def hexChar (n : Nat) : Char :=
  if n < 10 then Char.ofNat ('0'.toNat + n) else Char.ofNat ('a'.toNat + (n - 10))

/-- The encoding of one character inside a JSON string, with the HTML escapes that
`json.Marshal` applies. -/
def escapeChar (c : Char) : List Char :=
  if c = '\\' ∨ c = '"' then ['\\', c]
  else if c = '\n' then ['\\', 'n']
  else if c = '\r' then ['\\', 'r']
  else if c = '\t' then ['\\', 't']
  else if c.toNat < 0x20 ∨ c = '<' ∨ c = '>' ∨ c = '&' then
    ['\\', 'u', '0', '0', hexChar (c.toNat / 16), hexChar (c.toNat % 16)]
  else if c.toNat = 0x2028 ∨ c.toNat = 0x2029 then
    ['\\', 'u', '2', '0', '2', hexChar (c.toNat % 16)]
  else [c]

/-- The encoding of the characters of a string. -/
def escapeString : List Char → List Char
  | [] => []
  | c :: rest => escapeChar c ++ escapeString rest

/-- Go `json.Marshal` of a string. -/
def marshalString (s : String) : List Char :=
  '"' :: (escapeString s.data ++ ['"'])

/-- The members of a JSON object as the encoder writes them : each encoded name, a colon
and the encoded value, with commas in between. -/
def joinMembers : List (List Char × List Char) → List Char
  | [] => []
  | [m] => m.1 ++ ':' :: m.2
  | m :: rest => m.1 ++ ':' :: m.2 ++ ',' :: joinMembers rest

/-- Go `json.Marshal` of a `Key` : the fields in the order of the struct, under their JSON
names. -/
def marshalKey (key : Key) : List Char :=
  '{' :: (joinMembers
    [(marshalString "systemstreampartition-grouper-factory", marshalString key.GrouperFactory),
      (marshalString "taskName", marshalString key.TaskName),
      (marshalString "type", marshalString key.Type_)] ++ ['}'])

/-- Go `json.Marshal` of a `Checkpoint`. -/
def marshalCheckpoint (cp : Checkpoint) : List Char :=
  '{' :: (joinMembers
    [(marshalString "system", marshalString cp.System),
      (marshalString "partition", marshalString cp.Partition),
      (marshalString "offset", marshalString cp.Offset),
      (marshalString "stream", marshalString cp.Stream)] ++ ['}'])

/-- The order in which `json.Marshal` writes map keys : byte-wise on the UTF-8 text, which
is the order of the code points. -/
def keyLE : List Char → List Char → Bool
  | [], _ => true
  | _ :: _, [] => false
  | a :: as, b :: bs =>
    if a.toNat < b.toNat then true
    else if b.toNat < a.toNat then false
    else keyLE as bs

/-- The entries of a map in the order in which `json.Marshal` writes them. -/
def sortedEntries (streams : PartitionStreams) : List (String × Checkpoint) :=
  streams.entries.insertionSort (fun a b => keyLE a.1.data b.1.data = true)

/-- Go `json.Marshal` of a `PartitionStreams` : the entries sorted by key. -/
def marshalStreams (streams : PartitionStreams) : List Char :=
  '{' :: (joinMembers
    ((sortedEntries streams).map (fun e => (marshalString e.1, marshalCheckpoint e.2))) ++ ['}'])

/-! ## Formatting and the checkpoint topic -/

/-- The scan of a format by `fmt.Sprintf`; `afterPercent` says that the previous character
was an unfinished `%`. -/
def sprintfFrom : Bool → List Char → List (List Char) → List Char
  | false, [], _ => []
  | true, [], _ => "%!(NOVERB)".data
  | false, c :: rest, args =>
    if c = '%' then sprintfFrom true rest args else c :: sprintfFrom false rest args
  | true, c :: rest, args =>
    if c = 's' then
      match args with
      | a :: more => a ++ sprintfFrom false rest more
      | [] => "%!s(MISSING)".data ++ sprintfFrom false rest []
    else '%' :: sprintfFrom false rest args

/-- Go `fmt.Sprintf` for formats whose verbs are `%s` and `%%`, with as many string or
`[]byte` operands as the format has `%s`. -/
def Sprintf (format : List Char) (args : List (List Char)) : List Char :=
  sprintfFrom false format args

/-- The `topic` of `main` : `fmt.Sprintf("__samza_checkpoint_ver_1_for_%s_1", *jobName)`. -/
def checkpointTopic (jobName : String) : String :=
  String.mk (Sprintf "__samza_checkpoint_ver_1_for_%s_1".data [jobName.data])

/-- What `main` does with a topic name. -/
inductive TopicAction where
  | validate (topic : String)
  | drain (topic : String)
  | publish (topic : String)
  deriving DecidableEq, Repr

/-- The topic name an action is given. -/
def TopicAction.topic : TopicAction → String
  | validate t => t
  | drain t => t
  | publish t => t

/-- The command line flags of `main` that decide what is done with the topic. -/
structure Flags where
  brokers : String
  jobName : String
  filePath : String
  extract : Bool
  replace : Bool
  patch : Bool
  commit : Bool

/-- The topic actions of a run of `main`, in order : none when `checkDefault` ends the run
on an empty flag, else `validateCheckpointTopic`, then `readCheckpointsFromTopic` and
`writeCheckpointsToTopic` as the mode asks. -/
def mainTopicActions (flags : Flags) : List TopicAction :=
  if flags.brokers = "" ∨ flags.jobName = "" ∨ flags.filePath = "" then []
  else
    let topic := checkpointTopic flags.jobName
    TopicAction.validate topic ::
      (if flags.extract then [TopicAction.drain topic]
      else if flags.replace then
        (if flags.commit then [TopicAction.publish topic] else [])
      else if flags.patch then
        TopicAction.drain topic :: (if flags.commit then [TopicAction.publish topic] else [])
      else [])

/-! ## Topic drain -/

/-- Go `sarama.ConsumerMessage`, the fields the drain reads. -/
structure ConsumerMessage where
  Key : List Char
  Value : List Char
  Offset : Int

/-- Go `int64` arithmetic : the result wrapped into the 64-bit range. -/
def wrapInt64 (x : Int) : Int := (x + 2 ^ 63) % 2 ^ 64 - 2 ^ 63

/-- How the drain loop ends on the messages that the channel delivers.  `returned` : the
loop hit `break` and the function returned, having received `consumed` messages.
`waiting` : every delivered message was received without reaching `break`, and the loop is
blocked on the channel for another message. -/
inductive DrainResult where
  | returned (checkpoints : Checkpoints) (consumed : Nat)
  | waiting (checkpoints : Checkpoints) (consumed : Nat)
  deriving DecidableEq

/-- The loop `for message := range c.Messages()` of `readCheckpointsFromTopic`.
`highWaterMarkOffset n` is what `c.HighWaterMarkOffset()` returns in the iteration that
handles the message received after `n` others; on a log that does not grow while it is
drained it is the same number in every iteration. -/
def drainLoop (highWaterMarkOffset : Nat → Int) :
    List ConsumerMessage → Checkpoints → Nat → DrainResult
  | [], checkpoints, consumed => DrainResult.waiting checkpoints consumed
  | message :: rest, checkpoints, consumed =>
    match unmarshallKey message.Key with
    | none => drainLoop highWaterMarkOffset rest checkpoints (consumed + 1)
    | some key =>
      match unmarshallStreams message.Value with
      | none => drainLoop highWaterMarkOffset rest checkpoints (consumed + 1)
      | some streams =>
        if wrapInt64 (message.Offset + 1) ≥ highWaterMarkOffset consumed then
          DrainResult.returned (checkpoints.insert key streams) (consumed + 1)
        else
          drainLoop highWaterMarkOffset rest (checkpoints.insert key streams) (consumed + 1)

/-- Go `readCheckpointsFromTopic` on a partition whose channel delivers `messages`. -/
def readCheckpointsFromTopic (highWaterMarkOffset : Nat → Int)
    (messages : List ConsumerMessage) : DrainResult :=
  drainLoop highWaterMarkOffset messages GoMap.empty 0

/-! ## File codec -/

/-- Go `bufio.MaxScanTokenSize`, the buffer limit of a `bufio.Scanner`. -/
def MaxScanTokenSize : Nat := 64 * 1024

/-- The number of bytes of the UTF-8 encoding of a text. -/
def utf8Len : List Char → Nat
  | [] => 0
  | c :: rest => c.utf8Size + utf8Len rest

/-- The lines that `bufio.ScanLines` cuts the content into, before the carriage return is
dropped : the text between newlines, no line after a final newline. -/
def splitLines : List Char → List (List Char)
  | [] => []
  | c :: rest =>
    if c = '\n' then [] :: splitLines rest
    else
      match splitLines rest with
      | [] => [[c]]
      | line :: more => (c :: line) :: more

/-- Go `dropCR` of `bufio` : drop one trailing carriage return. -/
def dropCR (data : List Char) : List Char :=
  if data.getLast? = some '\r' then data.dropLast else data

/-- Go `strings.Split(s, sep)` for a separator of one character. -/
def splitOn (sep : Char) : List Char → List (List Char)
  | [] => [[]]
  | c :: rest =>
    if c = sep then [] :: splitOn sep rest
    else
      match splitOn sep rest with
      | [] => [[c]]
      | field :: more => (c :: field) :: more

/-- The ways `readCheckpointsFromFile` ends without a snapshot : the two `log.Fatalf` of
the loop, the runtime panic of `kv[1]` on a line without a tab, and the `log.Fatal` on
`scanner.Err()`, which is `bufio.ErrTooLong` for a line that does not fit the buffer. -/
inductive ReadError where
  | unexpectedKey
  | unexpectedStreams
  | indexOutOfRange
  | tokenTooLong
  deriving DecidableEq, Repr

deriving instance DecidableEq for Except

/-- The loop `for scanner.Scan()` of `readCheckpointsFromFile` over the remaining lines. -/
def readLines : List (List Char) → Checkpoints → Except ReadError Checkpoints
  | [], checkpoints => Except.ok checkpoints
  | raw :: more, checkpoints =>
    if MaxScanTokenSize ≤ utf8Len raw then Except.error ReadError.tokenTooLong
    else
      let kv := splitOn '\t' (dropCR raw)
      match unmarshallKey (kv[0]?.getD []) with
      | none => Except.error ReadError.unexpectedKey
      | some key =>
        match kv[1]? with
        | none => Except.error ReadError.indexOutOfRange
        | some field =>
          match unmarshallStreams field with
          | none => Except.error ReadError.unexpectedStreams
          | some streams => readLines more (checkpoints.insert key streams)

/-- Go `readCheckpointsFromFile` on a file with this content. -/
def readCheckpointsFromFile (content : List Char) : Except ReadError Checkpoints :=
  readLines (splitLines content) GoMap.empty

/-- Go `writeCheckpointsToFile` : the content written to the file. -/
def writeCheckpointsToFile (checkpoints : Checkpoints) : List Char :=
  checkpoints.keys.foldl
    (fun out key =>
      out ++ Sprintf "%s\t%s\n".data [marshalKey key, marshalStreams (streamsAt checkpoints key)])
    []

/-! ## Test data of `checkpoint_tool_test.go` -/

/-- Go `createKey`. -/
def createKey (partition : String) : Key :=
  { GrouperFactory := "org.apache.samza.container.grouper.stream.GroupByPartitionFactory"
    TaskName := "Partition-" ++ partition
    Type_ := "checkpoint" }

/-- Go `createCheckpoint`. -/
def createCheckpoint (stream partition offset : String) : Checkpoint :=
  { System := "kafka", Partition := partition, Offset := offset, Stream := stream }

/-- Go `createCheckpoints`. -/
def createCheckpoints : Checkpoints :=
  let streams121 := (((GoMap.empty : PartitionStreams).insert "topic abc 121"
      (createCheckpoint "abc" "121" "11111")).insert "topic def 121"
      (createCheckpoint "def" "121" "66666")).insert "topic xyz 121"
      (createCheckpoint "xyz" "121" "77777")
  let streams13 := (((GoMap.empty : PartitionStreams).insert "topic abc 13"
      (createCheckpoint "abc" "13" "22222")).insert "topic def 13"
      (createCheckpoint "def" "13" "55555")).insert "topic xyz 13"
      (createCheckpoint "xyz" "13" "33333")
  ((GoMap.empty : Checkpoints).insert (createKey "121") streams121).insert
    (createKey "13") streams13

/-- The patch of Go `TestMerging`. -/
def mergingPatch : Checkpoints :=
  let streams121 := ((GoMap.empty : PartitionStreams).insert "topic def 121"
      (createCheckpoint "def" "121" "66666")).insert "topic qrs 121"
      (createCheckpoint "qrs" "121" "99999")
  let streams67 := ((GoMap.empty : PartitionStreams).insert "topic abc 67"
      (createCheckpoint "abc" "67" "54321")).insert "topic def 67"
      (createCheckpoint "def" "67" "65432")
  ((GoMap.empty : Checkpoints).insert (createKey "121") streams121).insert
    (createKey "67") streams67

/-! ## Records and lines used as concrete inputs -/

/-- A checkpoint record of the task of partition `partition` at `offset`, with a TaskSnapshot
without entries. -/
def checkpointRecord (partition : String) (offset : Int) : ConsumerMessage :=
  { Key := marshalKey (createKey partition), Value := ['{', '}'], Offset := offset }

/-- A checkpoint record of the task of partition `partition` at `offset` : one stream `abc`
committed at `committed`. -/
def offsetRecord (partition committed : String) (offset : Int) : ConsumerMessage :=
  { Key := marshalKey (createKey partition)
    Value := marshalStreams ((GoMap.empty : PartitionStreams).insert "topic abc"
      (createCheckpoint "abc" partition committed))
    Offset := offset }

/-- A record of another kind that shares the topic : its key is a JSON object, its value
maps a task name to a number, which is not a `Checkpoint`. -/
def foreignRecord (offset : Int) : ConsumerMessage :=
  { Key := "\x7b\"type\":\"changelog-partition-mapping\"\x7d".data
    Value := "\x7b\"Partition 0\":0\x7d".data
    Offset := offset }

/-- A line with three tab-separated fields : a key, a TaskSnapshot and a surplus field. -/
def surplusLine : List Char :=
  "\x7b\"taskName\":\"Partition-121\",\"type\":\"checkpoint\"\x7d\t\x7b\x7d\tsurplus".data

/-! ## Specification-level definitions -/

/-- The text holds no tab and no newline. -/
def NoTabNewline (text : List Char) : Prop := ∀ c ∈ text, c ≠ '\t' ∧ c ≠ '\n'

instance (text : List Char) : Decidable (NoTabNewline text) :=
  inferInstanceAs (Decidable (∀ c ∈ text, c ≠ '\t' ∧ c ≠ '\n'))

/-- The line that `writeCheckpointsToFile` writes for a TaskKey, without its newline. -/
def fileLine (checkpoints : Checkpoints) (key : Key) : List Char :=
  marshalKey key ++ '\t' :: marshalStreams (streamsAt checkpoints key)

/-- A snapshot with one task whose name is as long as the buffer of a `bufio.Scanner`. -/
def oversizedSnapshot : Checkpoints :=
  (GoMap.empty : Checkpoints).insert
    { GrouperFactory := "org.apache.samza.container.grouper.stream.GroupByPartitionFactory"
      TaskName := String.mk (List.replicate MaxScanTokenSize 'a')
      Type_ := "checkpoint" }
    GoMap.empty

/-- The JSON value that the encoding of a `Key` denotes. -/
def keyValue (key : Key) : JValue :=
  JValue.object
    [("systemstreampartition-grouper-factory".data, JValue.string key.GrouperFactory.data),
      ("taskName".data, JValue.string key.TaskName.data),
      ("type".data, JValue.string key.Type_.data)]

/-- The JSON value that the encoding of a `Checkpoint` denotes. -/
def checkpointValue (cp : Checkpoint) : JValue :=
  JValue.object
    [("system".data, JValue.string cp.System.data),
      ("partition".data, JValue.string cp.Partition.data),
      ("offset".data, JValue.string cp.Offset.data),
      ("stream".data, JValue.string cp.Stream.data)]

/-- A record decodes : its key as a `Key` and its value as a `PartitionStreams`. -/
def decodes (message : ConsumerMessage) : Bool :=
  (unmarshallKey message.Key).isSome && (unmarshallStreams message.Value).isSome

/-- The last-write-wins fold of the specification : every record whose key and value both
decode is upserted in log order, the others are left out. -/
def lastWriteWins : List ConsumerMessage → Checkpoints → Checkpoints
  | [], snapshot => snapshot
  | message :: rest, snapshot =>
    match unmarshallKey message.Key, unmarshallStreams message.Value with
    | some key, some streams => lastWriteWins rest (snapshot.insert key streams)
    | _, _ => lastWriteWins rest snapshot

/-- The TaskSnapshot of the last record of the log that decodes in both halves and has the
TaskKey `key`. -/
def lastDecoded (key : Key) : List ConsumerMessage → Option PartitionStreams
  | [] => none
  | message :: rest =>
    match lastDecoded key rest with
    | some streams => some streams
    | none =>
      if unmarshallKey message.Key = some key then unmarshallStreams message.Value else none

/-- Deep equality of two snapshots read as maps : the same TaskKeys and, under every
TaskKey, the same StreamPartitionId to CheckpointValue entries. -/
def DeepEqual (a b : Checkpoints) : Prop :=
  (∀ k : Key, k ∈ a.keys ↔ k ∈ b.keys) ∧
  ∀ (k : Key) (streamKey : String),
    (streamsAt a k).lookup streamKey = (streamsAt b k).lookup streamKey

/-! # Theorems -/

/-! ## Go maps -/

namespace GoMap

variable {K V : Type}

theorem keys_insertList [DecidableEq K] (k : K) (v : V) (l : List (K × V)) :
    (insertList k v l).map Prod.fst =
      if k ∈ l.map Prod.fst then l.map Prod.fst else l.map Prod.fst ++ [k] := by
  induction l with
  | nil => simp [insertList]
  | cons e rest ih =>
    by_cases h : e.1 = k
    · simp [insertList, h]
    · have h2 : ¬ k = e.1 := fun h3 => h h3.symm
      simp only [insertList, h, if_false, List.map_cons, ih, List.mem_cons, h2, false_or]
      split <;> simp

theorem lookupList_insertList_self [DecidableEq K] (k : K) (v : V) (l : List (K × V)) :
    lookupList k (insertList k v l) = some v := by
  induction l with
  | nil => simp [insertList, lookupList]
  | cons e rest ih =>
    by_cases h : e.1 = k
    · simp [insertList, lookupList, h]
    · simp [insertList, lookupList, h, ih]

theorem lookupList_insertList_ne [DecidableEq K] {k k' : K} (v : V) (l : List (K × V))
    (hne : k' ≠ k) : lookupList k' (insertList k v l) = lookupList k' l := by
  induction l with
  | nil => simp [insertList, lookupList, hne.symm]
  | cons e rest ih =>
    by_cases h : e.1 = k
    · have : ¬ e.1 = k' := fun h2 => hne (h2.symm.trans h)
      simp [insertList, lookupList, h, hne.symm, this]
    · simp [insertList, lookupList, h, ih]

theorem lookupList_eq_none [DecidableEq K] (k : K) (l : List (K × V)) :
    lookupList k l = none ↔ k ∉ l.map Prod.fst := by
  induction l with
  | nil => simp [lookupList]
  | cons e rest ih =>
    by_cases h : e.1 = k
    · simp [lookupList, h]
    · have h2 : ¬ k = e.1 := fun h3 => h h3.symm
      simp [lookupList, h, h2, ih]

theorem lookupList_eq_some [DecidableEq K] (k : K) (v : V) (l : List (K × V))
    (hnd : (l.map Prod.fst).Nodup) : lookupList k l = some v ↔ (k, v) ∈ l := by
  induction l with
  | nil => simp [lookupList]
  | cons e rest ih =>
    rw [List.map_cons, List.nodup_cons] at hnd
    by_cases h : e.1 = k
    · have hnot : ∀ w, (k, w) ∉ rest := fun w hw =>
        hnd.1 (h ▸ List.mem_map_of_mem Prod.fst hw)
      simp only [lookupList, h, if_true, Option.some.injEq, List.mem_cons]
      constructor
      · intro hv
        left
        rw [← hv, ← h]
      · rintro (hv | hv)
        · rw [← hv]
        · exact absurd hv (hnot v)
    · have h2 : ¬ (k, v) = e := fun h3 => h (by rw [← h3])
      simp [lookupList, h, h2, ih hnd.2]

theorem lookup_empty [DecidableEq K] (k : K) : (empty : GoMap K V).lookup k = none := rfl

theorem lookup_insert_self [DecidableEq K] (m : GoMap K V) (k : K) (v : V) :
    (m.insert k v).lookup k = some v :=
  lookupList_insertList_self k v m.entries

theorem lookup_insert_ne [DecidableEq K] (m : GoMap K V) {k k' : K} (v : V) (hne : k' ≠ k) :
    (m.insert k v).lookup k' = m.lookup k' :=
  lookupList_insertList_ne v m.entries hne

theorem lookup_eq_none [DecidableEq K] (m : GoMap K V) (k : K) :
    m.lookup k = none ↔ k ∉ m.keys :=
  lookupList_eq_none k m.entries

theorem lookup_isSome [DecidableEq K] (m : GoMap K V) (k : K) :
    (m.lookup k).isSome = true ↔ k ∈ m.keys := by
  rw [← not_iff_not, ← lookup_eq_none]
  cases m.lookup k <;> simp

theorem lookup_eq_some [DecidableEq K] (m : GoMap K V) (k : K) (v : V) :
    m.lookup k = some v ↔ (k, v) ∈ m.entries :=
  lookupList_eq_some k v m.entries m.nodup

theorem len_eq_zero [DecidableEq K] (m : GoMap K V) : m.len = 0 ↔ ∀ k, m.lookup k = none := by
  unfold len
  constructor
  · intro h k
    have : m.entries = [] := List.length_eq_zero.mp h
    simp [lookup, this, lookupList]
  · intro h
    cases hm : m.entries with
    | nil => rfl
    | cons e rest =>
      have := h e.1
      simp [lookup, hm, lookupList] at this

/-- A loop over distinct keys, each step leaving the map alone or storing at its key a
value computed from what the map held there, changes exactly the stored keys. -/
theorem lookup_foldl_step [DecidableEq K] (c : K → Bool) (h : Option V → K → V) (l : List K)
    (hnd : l.Nodup) (m0 : GoMap K V) (k : K) :
    (l.foldl (fun m a => if c a then m else m.insert a (h (m.lookup a) a)) m0).lookup k =
      if k ∈ l ∧ c k = false then some (h (m0.lookup k) k) else m0.lookup k := by
  induction l generalizing m0 with
  | nil => simp
  | cons a rest ih =>
    rw [List.nodup_cons] at hnd
    rw [List.foldl_cons, ih hnd.2]
    by_cases hka : k = a
    · subst hka
      cases hc : c k <;> simp [hnd.1, hc, lookup_insert_self]
    · cases hc : c a <;> simp [hka, hc, lookup_insert_ne _ _ hka]

/-- Copying the entries of a list with distinct keys into a map : the copied entries win. -/
theorem lookup_foldl_entries [DecidableEq K] (l : List (K × V)) (hnd : (l.map Prod.fst).Nodup)
    (m0 : GoMap K V) (k : K) :
    (l.foldl (fun out e => out.insert e.1 e.2) m0).lookup k =
      (lookupList k l).orElse (fun _ => m0.lookup k) := by
  induction l generalizing m0 with
  | nil => simp [lookupList]
  | cons e rest ih =>
    rw [List.map_cons, List.nodup_cons] at hnd
    rw [List.foldl_cons, ih hnd.2]
    by_cases hk : e.1 = k
    · have hn : lookupList k rest = none := by
        rw [lookupList_eq_none]
        exact hk ▸ hnd.1
      subst hk
      simp [lookupList, hn, lookup_insert_self]
    · have hk2 : k ≠ e.1 := fun h => hk h.symm
      simp [lookupList, hk, lookup_insert_ne _ _ hk2]

end GoMap

/-! ## Filter -/

theorem has_iff (a : String) (list : List String) : has a list = true ↔ a ∈ list := by
  induction list with
  | nil => simp [has]
  | cons b rest ih =>
    by_cases h : b = a
    · simp [has, h]
    · have h2 : ¬ a = b := fun h3 => h h3.symm
      simp [has, h, h2, ih]

theorem hasOrEmpty_iff (a : String) (list : List String) :
    hasOrEmpty a list = true ↔ (list = [] ∨ a ∈ list) := by
  simp [hasOrEmpty, has_iff, List.length_eq_zero]

theorem hasNoOrEmpty_iff (a : String) (list : List String) :
    hasNoOrEmpty a list = true ↔ (list = [] ∨ a ∉ list) := by
  simp [hasNoOrEmpty, List.length_eq_zero, ← has_iff]

theorem streamAt_of_lookup {streams : PartitionStreams} {sk : String} {v : Checkpoint}
    (h : streams.lookup sk = some v) : streamAt streams sk = v := by
  simp [streamAt, h]

theorem lookup_filterStreams (streams : PartitionStreams) (I E : List String) (sk : String) :
    (filterStreams streams I E).lookup sk =
      if (hasOrEmpty (streamAt streams sk).Stream I &&
            hasNoOrEmpty (streamAt streams sk).Stream E) = true
      then streams.lookup sk else none := by
  have hstep := GoMap.lookup_foldl_step
    (fun a => !(hasOrEmpty (streamAt streams a).Stream I &&
      hasNoOrEmpty (streamAt streams a).Stream E))
    (fun _ a => streamAt streams a) streams.keys streams.nodup GoMap.empty sk
  have hfun : (fun (m : PartitionStreams) a =>
      if (!(hasOrEmpty (streamAt streams a).Stream I &&
        hasNoOrEmpty (streamAt streams a).Stream E)) = true then m
      else m.insert a (streamAt streams a)) =
      (fun filteredStreams streamKey =>
        let stream := streamAt streams streamKey
        let streamTopic := stream.Stream
        if (hasOrEmpty streamTopic I && hasNoOrEmpty streamTopic E) = true then
          filteredStreams.insert streamKey stream
        else filteredStreams) := by
    funext m a
    by_cases hp : (hasOrEmpty (streamAt streams a).Stream I &&
      hasNoOrEmpty (streamAt streams a).Stream E) = true
    · simp only [hp, Bool.not_true, Bool.false_eq_true, if_false, if_true]
    · simp only [hp, Bool.not_eq_true', if_false]
      simp only [Bool.not_eq_true] at hp
      simp [hp]
  rw [hfun] at hstep
  unfold filterStreams
  rw [hstep, GoMap.lookup_empty]
  by_cases hp : (hasOrEmpty (streamAt streams sk).Stream I &&
      hasNoOrEmpty (streamAt streams sk).Stream E) = true
  · by_cases hmem : sk ∈ streams.keys
    · have hs := (GoMap.lookup_isSome streams sk).mpr hmem
      obtain ⟨v, hv⟩ := Option.isSome_iff_exists.mp hs
      simp [hp, hmem, hv, streamAt]
    · have hn := (GoMap.lookup_eq_none streams sk).mpr hmem
      simp [hp, hmem, hn]
  · simp [hp]

theorem lookup_filterCheckpoints (S : Checkpoints) (I E : List String) (k : Key) :
    (filterCheckpoints S I E).lookup k =
      (S.lookup k).map (fun streams => filterStreams streams I E) := by
  have hstep := GoMap.lookup_foldl_step (fun _ => false)
    (fun _ a => filterStreams (streamsAt S a) I E) S.keys S.nodup GoMap.empty k
  simp only [Bool.false_eq_true, if_false, and_true] at hstep
  unfold filterCheckpoints
  rw [hstep, GoMap.lookup_empty]
  by_cases hmem : k ∈ S.keys
  · have hs := (GoMap.lookup_isSome S k).mpr hmem
    obtain ⟨v, hv⟩ := Option.isSome_iff_exists.mp hs
    simp [hmem, hv, streamsAt]
  · have hn := (GoMap.lookup_eq_none S k).mpr hmem
    simp [hmem, hn]

theorem mem_keys_filterCheckpoints (S : Checkpoints) (I E : List String) (k : Key) :
    k ∈ (filterCheckpoints S I E).keys ↔ k ∈ S.keys := by
  rw [← GoMap.lookup_isSome, ← GoMap.lookup_isSome, lookup_filterCheckpoints]
  cases S.lookup k <;> simp

/-- C1. `filterCheckpoints` keeps exactly the TaskKeys of the snapshot (a task whose
entries are all filtered out stays, with a TaskSnapshot without entries), and the
TaskSnapshot of a task in the result holds exactly the entries of the input whose value
has a stream name that is in the include list (or the include list is empty) and not in
the exclude list (or the exclude list is empty), values unchanged. -/
theorem filterCheckpoints_spec (S : Checkpoints) (I E : List String) :
    (∀ k : Key, k ∈ (filterCheckpoints S I E).keys ↔ k ∈ S.keys) ∧
    (∀ (k : Key) (streams : PartitionStreams), S.lookup k = some streams →
      ∃ filtered : PartitionStreams, (filterCheckpoints S I E).lookup k = some filtered ∧
        ∀ (streamKey : String) (value : Checkpoint),
          filtered.lookup streamKey = some value ↔
            (streams.lookup streamKey = some value ∧
              (I = [] ∨ value.Stream ∈ I) ∧ (E = [] ∨ value.Stream ∉ E))) := by
  constructor
  · exact mem_keys_filterCheckpoints S I E
  · intro k streams hk
    refine ⟨filterStreams streams I E, by simp [lookup_filterCheckpoints, hk], ?_⟩
    intro sk v
    rw [lookup_filterStreams]
    constructor
    · intro h
      split at h
      · rename_i hp
        rw [streamAt_of_lookup h, Bool.and_eq_true, hasOrEmpty_iff, hasNoOrEmpty_iff] at hp
        exact ⟨h, hp⟩
      · exact absurd h (by simp)
    · rintro ⟨hv, hI, hE⟩
      have hp : (hasOrEmpty (streamAt streams sk).Stream I &&
          hasNoOrEmpty (streamAt streams sk).Stream E) = true := by
        rw [streamAt_of_lookup hv, Bool.and_eq_true, hasOrEmpty_iff, hasNoOrEmpty_iff]
        exact ⟨hI, hE⟩
      rw [if_pos hp, hv]

/-- C5. Filtering with an empty include list and an empty exclude list returns a snapshot
deep-equal to the input. -/
theorem filterCheckpoints_empty_filters (S : Checkpoints) :
    DeepEqual (filterCheckpoints S [] []) S := by
  constructor
  · exact mem_keys_filterCheckpoints S [] []
  · intro k sk
    simp only [streamsAt, lookup_filterCheckpoints]
    cases S.lookup k with
    | none => rfl
    | some streams =>
      simp only [Option.map_some', Option.getD_some, lookup_filterStreams]
      simp [hasOrEmpty, hasNoOrEmpty]

/-! ## Clone and merge -/

theorem lookup_copyInto (dst src : PartitionStreams) (sk : String) :
    (copyInto dst src).lookup sk = (src.lookup sk).orElse (fun _ => dst.lookup sk) :=
  GoMap.lookup_foldl_entries src.entries src.nodup dst sk

theorem lookupList_map_snd {K V W : Type} [DecidableEq K] (f : V → W) (k : K)
    (l : List (K × V)) :
    GoMap.lookupList k (l.map (fun e => (e.1, f e.2))) = (GoMap.lookupList k l).map f := by
  induction l with
  | nil => rfl
  | cons e rest ih =>
    by_cases h : e.1 = k <;> simp [GoMap.lookupList, h, ih]

theorem lookup_cloneCheckpoints (S : Checkpoints) (k : Key) :
    (cloneCheckpoints S).lookup k = (S.lookup k).map (copyInto GoMap.empty) := by
  have h := GoMap.lookup_foldl_entries
    (S.entries.map (fun e => (e.1, copyInto GoMap.empty e.2)))
    (by rw [List.map_map]; exact S.nodup) GoMap.empty k
  rw [List.foldl_map, lookupList_map_snd, GoMap.lookup_empty] at h
  unfold cloneCheckpoints
  rw [h]
  unfold GoMap.lookup
  cases GoMap.lookupList k S.entries <;> rfl

theorem lookup_mergeCheckpoints (base patch : Checkpoints) (k : Key) :
    (mergeCheckpoints base patch).lookup k =
      if k ∈ patch.keys ∧ (streamsAt patch k).len ≠ 0 then
        some (if (base.lookup k).isSome then
          copyInto (streamsAt (cloneCheckpoints base) k) (streamsAt patch k)
        else streamsAt patch k)
      else (cloneCheckpoints base).lookup k := by
  have hstep := GoMap.lookup_foldl_step
    (fun a => decide ((streamsAt patch a).len = 0))
    (fun o a => if (base.lookup a).isSome then
        copyInto (o.getD GoMap.empty) (streamsAt patch a) else streamsAt patch a)
    patch.keys patch.nodup (cloneCheckpoints base) k
  have hfun : (fun (m : Checkpoints) a =>
      if decide ((streamsAt patch a).len = 0) = true then m
      else m.insert a (if (base.lookup a).isSome then
        copyInto ((m.lookup a).getD GoMap.empty) (streamsAt patch a) else streamsAt patch a)) =
      (fun merged key =>
        let patchStreams := streamsAt patch key
        if patchStreams.len = 0 then merged
        else if (base.lookup key).isSome then
          merged.insert key (copyInto (streamsAt merged key) patchStreams)
        else merged.insert key patchStreams) := by
    funext m a
    simp only [decide_eq_true_eq, streamsAt]
    split_ifs <;> rfl
  rw [hfun] at hstep
  unfold mergeCheckpoints
  rw [hstep]
  simp only [decide_eq_false_iff_not, streamsAt]

/-- C2. For a TaskKey that the patch maps to a non-empty TaskSnapshot : when the base has
the TaskKey, the merged TaskSnapshot holds every entry of the patch, every entry of the
base whose StreamPartitionId the patch does not have (with the value of the base) and
nothing else; when the base does not have the TaskKey, the merged TaskSnapshot is the one
of the patch. -/
theorem mergeCheckpoints_patch_nonempty (base patch : Checkpoints) (k : Key)
    (patchStreams : PartitionStreams) (hp : patch.lookup k = some patchStreams)
    (hne : patchStreams.len ≠ 0) :
    (∀ baseStreams : PartitionStreams, base.lookup k = some baseStreams →
      ∃ merged : PartitionStreams, (mergeCheckpoints base patch).lookup k = some merged ∧
        ∀ (streamKey : String) (value : Checkpoint),
          merged.lookup streamKey = some value ↔
            (patchStreams.lookup streamKey = some value ∨
              (patchStreams.lookup streamKey = none ∧
                baseStreams.lookup streamKey = some value))) ∧
    (base.lookup k = none → (mergeCheckpoints base patch).lookup k = some patchStreams) := by
  have hmem : k ∈ patch.keys := (GoMap.lookup_isSome patch k).mp (by simp [hp])
  have hat : streamsAt patch k = patchStreams := by simp [streamsAt, hp]
  have hcond : k ∈ patch.keys ∧ (streamsAt patch k).len ≠ 0 := ⟨hmem, by rw [hat]; exact hne⟩
  constructor
  · intro baseStreams hb
    refine ⟨copyInto (streamsAt (cloneCheckpoints base) k) patchStreams, ?_, ?_⟩
    · rw [lookup_mergeCheckpoints, if_pos hcond, hat]
      simp [hb]
    · intro sk v
      rw [lookup_copyInto]
      simp only [streamsAt, lookup_cloneCheckpoints, hb, Option.map_some', Option.getD_some,
        lookup_copyInto, GoMap.lookup_empty]
      cases patchStreams.lookup sk <;> cases baseStreams.lookup sk <;> simp
  · intro hb
    rw [lookup_mergeCheckpoints, if_pos hcond, hat]
    simp [hb]

/-- C3. A TaskKey that the patch maps to an empty TaskSnapshot is treated as absent from
the patch : it is in the merge result exactly when it is in the base, and then the merged
TaskSnapshot has the entries of the base, entry for entry. -/
theorem mergeCheckpoints_patch_empty (base patch : Checkpoints) (k : Key)
    (patchStreams : PartitionStreams) (hp : patch.lookup k = some patchStreams)
    (hempty : patchStreams.len = 0) :
    (k ∈ (mergeCheckpoints base patch).keys ↔ k ∈ base.keys) ∧
    (∀ baseStreams : PartitionStreams, base.lookup k = some baseStreams →
      ∃ merged : PartitionStreams, (mergeCheckpoints base patch).lookup k = some merged ∧
        ∀ streamKey : String, merged.lookup streamKey = baseStreams.lookup streamKey) := by
  have hat : streamsAt patch k = patchStreams := by simp [streamsAt, hp]
  have hcond : ¬ (k ∈ patch.keys ∧ (streamsAt patch k).len ≠ 0) := by
    rw [hat]
    exact fun h => h.2 hempty
  have hl : (mergeCheckpoints base patch).lookup k =
      (base.lookup k).map (copyInto GoMap.empty) := by
    rw [lookup_mergeCheckpoints, if_neg hcond, lookup_cloneCheckpoints]
  constructor
  · rw [← GoMap.lookup_isSome, ← GoMap.lookup_isSome, hl]
    cases base.lookup k <;> simp
  · intro baseStreams hb
    refine ⟨copyInto GoMap.empty baseStreams, by simp [hl, hb], ?_⟩
    intro sk
    rw [lookup_copyInto, GoMap.lookup_empty]
    cases baseStreams.lookup sk <;> rfl

/-- C4. Merging a snapshot with itself gives a snapshot deep-equal to it, also when some
of its TaskKeys have a TaskSnapshot without entries. -/
theorem mergeCheckpoints_self (S : Checkpoints) : DeepEqual (mergeCheckpoints S S) S := by
  have hl : ∀ k : Key, ∃ f : PartitionStreams → PartitionStreams,
      (mergeCheckpoints S S).lookup k = (S.lookup k).map f ∧
      ∀ (streams : PartitionStreams), S.lookup k = some streams →
        ∀ sk : String, (f streams).lookup sk = streams.lookup sk := by
    intro k
    cases hk : S.lookup k with
    | none =>
      refine ⟨id, ?_, fun _ h => by simp at h⟩
      have hmem : k ∉ S.keys := (GoMap.lookup_eq_none S k).mp hk
      rw [lookup_mergeCheckpoints, if_neg (fun h => hmem h.1), lookup_cloneCheckpoints, hk]
      rfl
    | some streams =>
      by_cases hlen : streams.len = 0
      · refine ⟨copyInto GoMap.empty, ?_, ?_⟩
        · have hcond : ¬ (k ∈ S.keys ∧ (streamsAt S k).len ≠ 0) := by
            simp [streamsAt, hk, hlen]
          rw [lookup_mergeCheckpoints, if_neg hcond, lookup_cloneCheckpoints, hk]
        · intro st hst sk
          rw [lookup_copyInto, GoMap.lookup_empty]
          cases st.lookup sk <;> rfl
      · refine ⟨fun st => copyInto (copyInto GoMap.empty st) st, ?_, ?_⟩
        · have hmem : k ∈ S.keys := (GoMap.lookup_isSome S k).mp (by simp [hk])
          have hcond : k ∈ S.keys ∧ (streamsAt S k).len ≠ 0 :=
            ⟨hmem, by simp [streamsAt, hk, hlen]⟩
          rw [lookup_mergeCheckpoints, if_pos hcond]
          simp [streamsAt, hk, lookup_cloneCheckpoints]
        · intro st hst sk
          simp only [lookup_copyInto, GoMap.lookup_empty]
          cases st.lookup sk <;> rfl
  constructor
  · intro k
    obtain ⟨f, hf, -⟩ := hl k
    rw [← GoMap.lookup_isSome, ← GoMap.lookup_isSome, hf]
    cases S.lookup k <;> simp
  · intro k sk
    obtain ⟨f, hf, hsame⟩ := hl k
    simp only [streamsAt, hf]
    cases hk : S.lookup k with
    | none => rfl
    | some streams => simpa using hsame streams hk sk

/-- Witness of C2 on the snapshots of `TestMerging`, for the task of partition 121. -/
theorem mergeCheckpoints_patch_nonempty_witness :
    mergingPatch.lookup (createKey "121") = some (streamsAt mergingPatch (createKey "121")) ∧
    (streamsAt mergingPatch (createKey "121")).len ≠ 0 ∧
    ((∀ baseStreams : PartitionStreams,
      createCheckpoints.lookup (createKey "121") = some baseStreams →
      ∃ merged : PartitionStreams,
        (mergeCheckpoints createCheckpoints mergingPatch).lookup (createKey "121") =
          some merged ∧
        ∀ (streamKey : String) (value : Checkpoint),
          merged.lookup streamKey = some value ↔
            ((streamsAt mergingPatch (createKey "121")).lookup streamKey = some value ∨
              ((streamsAt mergingPatch (createKey "121")).lookup streamKey = none ∧
                baseStreams.lookup streamKey = some value))) ∧
    (createCheckpoints.lookup (createKey "121") = none →
      (mergeCheckpoints createCheckpoints mergingPatch).lookup (createKey "121") =
        some (streamsAt mergingPatch (createKey "121")))) :=
  ⟨by decide, by decide,
    mergeCheckpoints_patch_nonempty createCheckpoints mergingPatch (createKey "121")
      (streamsAt mergingPatch (createKey "121")) (by decide) (by decide)⟩

/-- Witness of C3 : a patch that maps the task of partition 121 to a TaskSnapshot without
entries, merged into the snapshot of the tests. -/
theorem mergeCheckpoints_patch_empty_witness :
    ((GoMap.empty : Checkpoints).insert (createKey "121") GoMap.empty).lookup
      (createKey "121") = some GoMap.empty ∧
    (GoMap.empty : PartitionStreams).len = 0 ∧
    ((createKey "121" ∈ (mergeCheckpoints createCheckpoints
        ((GoMap.empty : Checkpoints).insert (createKey "121") GoMap.empty)).keys ↔
      createKey "121" ∈ createCheckpoints.keys) ∧
    (∀ baseStreams : PartitionStreams,
      createCheckpoints.lookup (createKey "121") = some baseStreams →
      ∃ merged : PartitionStreams,
        (mergeCheckpoints createCheckpoints
          ((GoMap.empty : Checkpoints).insert (createKey "121") GoMap.empty)).lookup
            (createKey "121") = some merged ∧
        ∀ streamKey : String, merged.lookup streamKey = baseStreams.lookup streamKey)) :=
  ⟨by decide, by decide,
    mergeCheckpoints_patch_empty createCheckpoints
      ((GoMap.empty : Checkpoints).insert (createKey "121") GoMap.empty) (createKey "121")
      GoMap.empty (by decide) (by decide)⟩

/-! ## The checkpoint topic -/

theorem checkpointTopic_eq (jobName : String) :
    checkpointTopic jobName = "__samza_checkpoint_ver_1_for_" ++ jobName ++ "_1" := by
  rfl

/-- C10, as stated : the topic of job `job` is not `__checkpoint_ver_1_for_job_1`. -/
theorem checkpointTopic_not_as_stated :
    ¬ (∀ jobName : String,
      checkpointTopic jobName = "__checkpoint_ver_1_for_" ++ jobName ++ "_1") := by
  intro h
  exact absurd (h "job") (by decide)

/-- C10, amended. The topic that `main` validates, drains and publishes to is
`__samza_checkpoint_ver_1_for_`, then the job name, then `_1`. -/
theorem mainTopicActions_topic (flags : Flags) (action : TopicAction)
    (h : action ∈ mainTopicActions flags) :
    action.topic = "__samza_checkpoint_ver_1_for_" ++ flags.jobName ++ "_1" := by
  rw [← checkpointTopic_eq]
  obtain ⟨brokers, jobName, filePath, extract, replace, patch, commit⟩ := flags
  unfold mainTopicActions at h
  split at h
  · simp at h
  · cases extract <;> cases replace <;> cases patch <;> cases commit <;> simp at h
    all_goals
      first
      | (subst h; rfl)
      | (rcases h with h | h <;> subst h <;> rfl)
      | (rcases h with h | h | h <;> subst h <;> rfl)

/-- Witness of C10, amended : a committing patch run for job `job` publishes to
`__samza_checkpoint_ver_1_for_job_1`. -/
theorem mainTopicActions_topic_witness :
    TopicAction.publish "__samza_checkpoint_ver_1_for_job_1" ∈
      mainTopicActions ⟨"localhost:9092", "job", "checkpoints.tsv", false, false, true, true⟩ ∧
    (TopicAction.publish "__samza_checkpoint_ver_1_for_job_1").topic =
      "__samza_checkpoint_ver_1_for_" ++ "job" ++ "_1" :=
  ⟨by decide,
    mainTopicActions_topic ⟨"localhost:9092", "job", "checkpoints.tsv", false, false, true, true⟩
      (TopicAction.publish "__samza_checkpoint_ver_1_for_job_1") (by decide)⟩

/-! ## Topic drain -/

theorem wrapInt64_of_range (x : Int) (h0 : 0 ≤ x) (h1 : x < 2 ^ 63) : wrapInt64 x = x := by
  unfold wrapInt64
  have h : (x + 2 ^ 63) % 2 ^ 64 = x + 2 ^ 63 := Int.emod_eq_of_lt (by omega) (by omega)
  omega

/-- The drain loop on the records of a static log : the offsets of `messages ++ [last]` run
from `first` up to `highWaterMark - 1`.  The loop receives all of them; it returns after
the last one when that one decodes, and is left waiting on the channel when it does not.
In both cases the snapshot is the last-write-wins fold. -/
theorem drainLoop_static_log (highWaterMark : Nat) (hrange : (highWaterMark : Int) < 2 ^ 63)
    (messages : List ConsumerMessage) (last : ConsumerMessage) (first : Nat)
    (hoff : (messages ++ [last]).map ConsumerMessage.Offset =
      (List.range' first (messages.length + 1)).map (fun n : Nat => (n : Int)))
    (hlen : first + messages.length + 1 = highWaterMark)
    (checkpoints : Checkpoints) (consumed : Nat) :
    drainLoop (fun _ => (highWaterMark : Int)) (messages ++ [last]) checkpoints consumed =
      if decodes last = true then
        DrainResult.returned (lastWriteWins (messages ++ [last]) checkpoints)
          (consumed + messages.length + 1)
      else
        DrainResult.waiting (lastWriteWins (messages ++ [last]) checkpoints)
          (consumed + messages.length + 1) := by
  induction messages generalizing first checkpoints consumed with
  | nil =>
    simp only [List.nil_append, List.map_cons, List.map_nil, List.length_nil, zero_add,
      List.range'_one, List.cons.injEq, and_true] at hoff
    simp only [List.length_nil, add_zero] at hlen
    have hw : wrapInt64 (last.Offset + 1) = (highWaterMark : Int) := by
      rw [hoff, wrapInt64_of_range _ (by omega) (by omega)]
      omega
    simp only [List.nil_append, drainLoop, lastWriteWins, decodes, List.length_nil, add_zero]
    cases hk : unmarshallKey last.Key with
    | none => simp
    | some key =>
      cases hv : unmarshallStreams last.Value with
      | none => simp
      | some streams => simp [hw]
  | cons m rest ih =>
    have hr : List.range' first ((m :: rest).length + 1) =
        first :: List.range' (first + 1) (rest.length + 1) := rfl
    rw [hr] at hoff
    simp only [List.cons_append, List.map_cons, List.cons.injEq] at hoff
    simp only [List.length_cons] at hlen
    have hrest := ih (first + 1) hoff.2 (by omega)
    have hw : ¬ (wrapInt64 (m.Offset + 1) ≥ (highWaterMark : Int)) := by
      rw [hoff.1, wrapInt64_of_range _ (by omega) (by omega)]
      omega
    have hcount : ∀ n : Nat, n + 1 + rest.length + 1 = n + (rest.length + 1) + 1 := by
      intro n; omega
    rw [List.cons_append]
    generalize rest ++ [last] = tail at hrest
    simp only [drainLoop, lastWriteWins, List.length_cons]
    cases hk : unmarshallKey m.Key with
    | none => simp only [hrest, hcount]
    | some key =>
      cases hv : unmarshallStreams m.Value with
      | none => simp only [hrest, hcount]
      | some streams => simp only [hw, if_false, hrest, hcount]

/-- The drain of a static log with the records at offsets `0 .. H-1`, `H ≥ 1`. -/
theorem readCheckpointsFromTopic_static_log (highWaterMark : Nat)
    (hrange : (highWaterMark : Int) < 2 ^ 63)
    (messages : List ConsumerMessage) (last : ConsumerMessage)
    (hoff : (messages ++ [last]).map ConsumerMessage.Offset =
      (List.range highWaterMark).map (fun n : Nat => (n : Int))) :
    readCheckpointsFromTopic (fun _ => (highWaterMark : Int)) (messages ++ [last]) =
      if decodes last = true then
        DrainResult.returned (lastWriteWins (messages ++ [last]) GoMap.empty) highWaterMark
      else
        DrainResult.waiting (lastWriteWins (messages ++ [last]) GoMap.empty) highWaterMark := by
  have hlen : messages.length + 1 = highWaterMark := by
    have := congrArg List.length hoff
    simpa using this
  have h := drainLoop_static_log highWaterMark hrange messages last 0
    (by rw [hoff, ← hlen, List.range_eq_range']) (by omega) GoMap.empty 0
  unfold readCheckpointsFromTopic
  rw [h]
  simp only [zero_add, hlen]

/-- The last-write-wins fold maps a TaskKey to the TaskSnapshot of the last record that
decodes in both halves under that TaskKey, and leaves every other TaskKey alone. -/
theorem lookup_lastWriteWins (messages : List ConsumerMessage) (snapshot : Checkpoints)
    (key : Key) :
    (lastWriteWins messages snapshot).lookup key =
      (lastDecoded key messages).orElse (fun _ => snapshot.lookup key) := by
  induction messages generalizing snapshot with
  | nil => rfl
  | cons m rest ih =>
    simp only [lastWriteWins, lastDecoded]
    cases hk : unmarshallKey m.Key with
    | none =>
      rw [ih]
      cases lastDecoded key rest <;> simp
    | some k =>
      cases hv : unmarshallStreams m.Value with
      | none =>
        simp only [ih]
        cases lastDecoded key rest <;> simp
      | some streams =>
        simp only [ih]
        cases lastDecoded key rest with
        | some st => simp
        | none =>
          by_cases hkk : k = key
          · subst hkk
            simp [GoMap.lookup_insert_self]
          · have hne : key ≠ k := fun h => hkk h.symm
            simp [hkk, GoMap.lookup_insert_ne _ _ hne]

set_option maxRecDepth 100000 in
/-- The drain scenario of the specification : three records at offsets 0, 1, 2 with
high-water-mark 3, the first two under one TaskKey.  The drain returns after the third
record with two TaskKeys, and the shared TaskKey holds the value of offset 1. -/
theorem readCheckpointsFromTopic_scenario :
    readCheckpointsFromTopic (fun _ => 3)
        [offsetRecord "121" "10" 0, offsetRecord "121" "20" 1, offsetRecord "13" "30" 2] =
      DrainResult.returned
        (((GoMap.empty : Checkpoints).insert (createKey "121")
            ((GoMap.empty : PartitionStreams).insert "topic abc"
              (createCheckpoint "abc" "121" "20"))).insert (createKey "13")
            ((GoMap.empty : PartitionStreams).insert "topic abc"
              (createCheckpoint "abc" "13" "30"))) 3 := by
  decide

set_option maxRecDepth 100000 in
/-- C6. On the log with high-water-mark 1 whose record at offset 0 does not decode, the
drain does not stop after that record : it waits for another message; and when a record is
published at offset 1 afterwards (the high-water-mark is 2 from then on), the drain consumes
it as well and returns a snapshot with it. -/
theorem readCheckpointsFromTopic_undecodable_last :
    readCheckpointsFromTopic (fun _ => 1) [foreignRecord 0] =
      DrainResult.waiting GoMap.empty 1 ∧
    readCheckpointsFromTopic (fun n => if n = 0 then 1 else 2)
        [foreignRecord 0, checkpointRecord "121" 1] =
      DrainResult.returned ((GoMap.empty : Checkpoints).insert (createKey "121") GoMap.empty) 2 := by
  constructor <;> decide

set_option maxRecDepth 100000 in
/-- C7. On the log with high-water-mark 2 whose record at offset 0 is a checkpoint and
whose record at offset 1 does not decode, the drain returns no snapshot : it holds the
last-write-wins fold and waits for another message. -/
theorem readCheckpointsFromTopic_no_snapshot :
    readCheckpointsFromTopic (fun _ => 2) [checkpointRecord "121" 0, foreignRecord 1] =
      DrainResult.waiting ((GoMap.empty : Checkpoints).insert (createKey "121") GoMap.empty) 2 := by
  decide

/-! ## File codec : reading -/

theorem readLines_ok {lines : List (List Char)} {checkpoints result : Checkpoints}
    (h : readLines lines checkpoints = Except.ok result) (raw : List Char) (hraw : raw ∈ lines) :
    utf8Len raw < MaxScanTokenSize ∧
    (unmarshallKey ((splitOn '\t' (dropCR raw))[0]?.getD [])).isSome = true ∧
    (((splitOn '\t' (dropCR raw))[1]?).bind unmarshallStreams).isSome = true := by
  induction lines generalizing checkpoints with
  | nil => simp at hraw
  | cons line more ih =>
    simp only [readLines] at h
    split at h
    · simp at h
    · rename_i hfit
      split at h
      · simp at h
      · rename_i key hkey
        split at h
        · simp at h
        · rename_i field hfield
          split at h
          · simp at h
          · rename_i streams hstreams
            rcases List.mem_cons.mp hraw with heq | hmem
            · subst heq
              exact ⟨by omega, by simp [hkey], by simp [hfield, hstreams]⟩
            · exact ih h hmem

/-- C8, as stated : a line with three tab-separated fields is accepted, the third field
ignored. -/
theorem readCheckpointsFromFile_accepts_surplus_field :
    (splitOn '\t' surplusLine).length = 3 ∧
    readCheckpointsFromFile (surplusLine ++ ['\n']) =
      Except.ok ((GoMap.empty : Checkpoints).insert ⟨"", "Partition-121", "checkpoint"⟩
        GoMap.empty) := by
  constructor <;> decide

/-- C8, amended. If some line of the file has a first tab-separated field that fails key
decoding, or has no tab, or has a second field that fails TaskSnapshot decoding, the read
ends without a snapshot. -/
theorem readCheckpointsFromFile_fatal (content raw : List Char)
    (hraw : raw ∈ splitLines content)
    (hbad : unmarshallKey ((splitOn '\t' (dropCR raw))[0]?.getD []) = none ∨
      (splitOn '\t' (dropCR raw)).length < 2 ∨
      ∃ field : List Char, (splitOn '\t' (dropCR raw))[1]? = some field ∧
        unmarshallStreams field = none) :
    ∃ e : ReadError, readCheckpointsFromFile content = Except.error e := by
  cases hres : readCheckpointsFromFile content with
  | error e => exact ⟨e, rfl⟩
  | ok result =>
    exfalso
    obtain ⟨-, hkey, hstreams⟩ := readLines_ok hres raw hraw
    rcases hbad with hb | hb | ⟨field, hf, hb⟩
    · simp [hb] at hkey
    · have : (splitOn '\t' (dropCR raw))[1]? = none := List.getElem?_eq_none (by omega)
      simp [this] at hstreams
    · simp [hf, hb] at hstreams

/-- Witness of C8, amended : a file whose second line has no tab. -/
theorem readCheckpointsFromFile_fatal_witness :
    "\x7b\x7d".data ∈ splitLines (surplusLine ++ "\n\x7b\x7d\n".data) ∧
    (unmarshallKey ((splitOn '\t' (dropCR "\x7b\x7d".data))[0]?.getD []) = none ∨
      (splitOn '\t' (dropCR "\x7b\x7d".data)).length < 2 ∨
      ∃ field : List Char, (splitOn '\t' (dropCR "\x7b\x7d".data))[1]? = some field ∧
        unmarshallStreams field = none) ∧
    ∃ e : ReadError,
      readCheckpointsFromFile (surplusLine ++ "\n\x7b\x7d\n".data) = Except.error e :=
  ⟨by decide, Or.inr (Or.inl (by decide)),
    readCheckpointsFromFile_fatal (surplusLine ++ "\n\x7b\x7d\n".data) "\x7b\x7d".data
      (by decide) (Or.inr (Or.inl (by decide)))⟩

/-! ## JSON strings : what is written is read back -/

theorem hexDigit_hexChar (d : Nat) (h : d < 16) : hexDigit (hexChar d) = some d := by
  revert d
  decide

theorem getu4_escape (a b c d : Char) (rest : List Char) (na nb nc nd : Nat)
    (ha : hexDigit a = some na) (hb : hexDigit b = some nb) (hc : hexDigit c = some nc)
    (hd : hexDigit d = some nd) :
    getu4 ('\\' :: 'u' :: a :: b :: c :: d :: rest) =
      some (((na * 16 + nb) * 16 + nc) * 16 + nd) := by
  simp [getu4, ha, hb, hc, hd]

theorem readString_plain (fuel : Nat) (c : Char) (rest : List Char) (h1 : c ≠ '"')
    (h2 : c ≠ '\\') (h3 : ¬ c.toNat < 0x20) :
    readString (fuel + 1) (c :: rest) =
      (readString fuel rest).map (fun p => (c :: p.1, p.2)) := by
  simp [readString, h1, h2, h3]

theorem readString_simple (fuel : Nat) (e ch : Char) (rest : List Char) (he : e ≠ 'u')
    (hs : simpleEscape e = some ch) :
    readString (fuel + 1) ('\\' :: e :: rest) =
      (readString fuel rest).map (fun p => (ch :: p.1, p.2)) := by
  simp [readString, he, hs]

theorem readString_unicode (fuel : Nat) (a b c d : Char) (rest : List Char) (rr : Nat)
    (hu : getu4 ('\\' :: 'u' :: a :: b :: c :: d :: rest) = some rr)
    (hs : isSurrogate rr = false) :
    readString (fuel + 1) ('\\' :: 'u' :: a :: b :: c :: d :: rest) =
      (readString fuel rest).map (fun p => (Char.ofNat rr :: p.1, p.2)) := by
  simp [readString, hu, hs]

/-- Reading the encoding of one character gives the character back. -/
theorem readString_escapeChar (fuel : Nat) (c : Char) (rest : List Char) :
    readString (fuel + 1) (escapeChar c ++ rest) =
      (readString fuel rest).map (fun p => (c :: p.1, p.2)) := by
  unfold escapeChar
  split_ifs with h1 h2 h3 h4 h5 h6
  · rcases h1 with h | h <;> subst h
    · exact readString_simple fuel '\\' '\\' rest (by decide) (by decide)
    · exact readString_simple fuel '"' '"' rest (by decide) (by decide)
  · subst h2
    exact readString_simple fuel 'n' '\n' rest (by decide) (by decide)
  · subst h3
    exact readString_simple fuel 'r' '\r' rest (by decide) (by decide)
  · subst h4
    exact readString_simple fuel 't' '\t' rest (by decide) (by decide)
  · have hlt : c.toNat < 256 := by
      rcases h5 with h | h | h | h
      · omega
      · subst h; decide
      · subst h; decide
      · subst h; decide
    have hu := getu4_escape '0' '0' (hexChar (c.toNat / 16)) (hexChar (c.toNat % 16)) rest
      0 0 (c.toNat / 16) (c.toNat % 16) (by decide) (by decide)
      (hexDigit_hexChar _ (by omega)) (hexDigit_hexChar _ (by omega))
    have hval : ((0 * 16 + 0) * 16 + c.toNat / 16) * 16 + c.toNat % 16 = c.toNat := by omega
    rw [hval] at hu
    have hs : isSurrogate c.toNat = false := by
      simp only [isSurrogate, Bool.and_eq_false_imp, decide_eq_true_eq, decide_eq_false_iff_not]
      omega
    have := readString_unicode fuel '0' '0' (hexChar (c.toNat / 16)) (hexChar (c.toNat % 16))
      rest c.toNat hu hs
    rw [Char.ofNat_toNat] at this
    exact this
  · have hu := getu4_escape '2' '0' '2' (hexChar (c.toNat % 16)) rest
      2 0 2 (c.toNat % 16) (by decide) (by decide) (by decide)
      (hexDigit_hexChar _ (by omega))
    have hval : ((2 * 16 + 0) * 16 + 2) * 16 + c.toNat % 16 = c.toNat := by omega
    rw [hval] at hu
    have hs : isSurrogate c.toNat = false := by
      simp only [isSurrogate, Bool.and_eq_false_imp, decide_eq_true_eq, decide_eq_false_iff_not]
      omega
    have := readString_unicode fuel '2' '0' '2' (hexChar (c.toNat % 16))
      rest c.toNat hu hs
    rw [Char.ofNat_toNat] at this
    exact this
  · have h1' : c ≠ '"' := fun h => h1 (Or.inr h)
    have h2' : c ≠ '\\' := fun h => h1 (Or.inl h)
    have h3' : ¬ c.toNat < 0x20 := fun h => h5 (Or.inl h)
    exact readString_plain fuel c rest h1' h2' h3'

/-- Reading the body of an encoded string gives the string back. -/
theorem readString_escapeString (s rest : List Char) (fuel : Nat) (h : s.length < fuel) :
    readString fuel (escapeString s ++ '"' :: rest) = some (s, rest) := by
  induction s generalizing fuel with
  | nil =>
    obtain ⟨f, rfl⟩ : ∃ f, fuel = f + 1 := ⟨fuel - 1, by simp at h; omega⟩
    simp [escapeString, readString]
  | cons c t ih =>
    obtain ⟨f, rfl⟩ : ∃ f, fuel = f + 1 := ⟨fuel - 1, by simp at h; omega⟩
    simp only [escapeString, List.append_assoc]
    rw [readString_escapeChar, ih f (by simp at h; omega)]
    rfl

theorem length_escapeChar_pos (c : Char) : 1 ≤ (escapeChar c).length := by
  unfold escapeChar
  split_ifs <;> simp

theorem length_le_escapeString (s : List Char) : s.length ≤ (escapeString s).length := by
  induction s with
  | nil => simp [escapeString]
  | cons c t ih =>
    have := length_escapeChar_pos c
    simp only [escapeString, List.length_cons, List.length_append]
    omega

/-! ## JSON objects : what is written is parsed back -/

theorem skipSpace_of_not_space (c : Char) (rest : List Char) (h : isSpace c = false) :
    skipSpace (c :: rest) = c :: rest := by
  simp [skipSpace, h]

theorem parseValue_marshalString (fuel : Nat) (s : String) (rest : List Char) :
    parseValue (fuel + 1) (marshalString s ++ rest) = some (JValue.string s.data, rest) := by
  have hr := readString_escapeString s.data rest
    ((escapeString s.data ++ '"' :: rest).length + 1)
    (by have := length_le_escapeString s.data
        simp only [List.length_append, List.length_cons]
        omega)
  have e : marshalString s ++ rest = '"' :: (escapeString s.data ++ '"' :: rest) := by
    simp [marshalString]
  rw [e]
  simp only [parseValue]
  rw [hr]
  simp

/-- One member of an object : its name, the text of its value and the parsed value. -/
theorem readMembers_member (pv : List Char → Option (JValue × List Char)) (fuel : Nat)
    (name : String) (e : List Char) (v : JValue) (sep : Char) (tail : List Char)
    (hpv : pv (e ++ sep :: tail) = some (v, sep :: tail))
    (hstart : skipSpace (e ++ sep :: tail) = e ++ sep :: tail)
    (hsep : isSpace sep = false) :
    readMembers pv (fuel + 1) (marshalString name ++ ':' :: (e ++ sep :: tail)) =
      if sep = ',' then
        (readMembers pv fuel (skipSpace tail)).map (fun p => ((name.data, v) :: p.1, p.2))
      else if sep = '}' then some ([(name.data, v)], tail)
      else none := by
  have hr := readString_escapeString name.data (':' :: (e ++ sep :: tail))
    ((escapeString name.data ++ '"' :: ':' :: (e ++ sep :: tail)).length + 1)
    (by have := length_le_escapeString name.data
        simp only [List.length_append, List.length_cons]
        omega)
  have e0 : marshalString name ++ ':' :: (e ++ sep :: tail) =
      '"' :: (escapeString name.data ++ '"' :: ':' :: (e ++ sep :: tail)) := by
    simp [marshalString]
  rw [e0]
  simp only [readMembers]
  rw [hr]
  simp only [if_true]
  rw [skipSpace_of_not_space ':' _ (by decide)]
  simp only [if_true, hstart, hpv]
  rw [skipSpace_of_not_space sep _ hsep]

theorem joinMembers_cons_cons (m m2 : List Char × List Char)
    (rest : List (List Char × List Char)) :
    joinMembers (m :: m2 :: rest) = m.1 ++ ':' :: m.2 ++ ',' :: joinMembers (m2 :: rest) := rfl

theorem skipSpace_joinMembers (name : String) (e : List Char)
    (rest : List (List Char × List Char)) (tail : List Char) :
    skipSpace (joinMembers ((marshalString name, e) :: rest) ++ tail) =
      joinMembers ((marshalString name, e) :: rest) ++ tail := by
  cases rest with
  | nil => simp [joinMembers, marshalString, skipSpace, isSpace]
  | cons m2 rest => simp [joinMembers_cons_cons, marshalString, skipSpace, isSpace]

/-- The members of an encoded object are read back, given that the value parser reads each
encoded value back. -/
theorem readMembers_joinMembers (pv : List Char → Option (JValue × List Char))
    (items : List (String × List Char × JValue))
    (hpv : ∀ t ∈ items, ∀ r : List Char, pv (t.2.1 ++ r) = some (t.2.2, r))
    (hstart : ∀ t ∈ items, ∀ r : List Char, skipSpace (t.2.1 ++ r) = t.2.1 ++ r)
    (hne : items ≠ []) (fuel : Nat) (hfuel : items.length ≤ fuel) (rest : List Char) :
    readMembers pv fuel
        (joinMembers (items.map (fun t => (marshalString t.1, t.2.1))) ++ '}' :: rest) =
      some (items.map (fun t => (t.1.data, t.2.2)), rest) := by
  induction items generalizing fuel with
  | nil => exact absurd rfl hne
  | cons t more ih =>
    obtain ⟨f, rfl⟩ : ∃ f, fuel = f + 1 := ⟨fuel - 1, by simp at hfuel; omega⟩
    cases more with
    | nil =>
      simp only [List.map_cons, List.map_nil, joinMembers, List.append_assoc, List.cons_append]
      rw [readMembers_member pv f t.1 t.2.1 t.2.2 '}' rest
        (hpv t (List.mem_cons_self _ _) _) (hstart t (List.mem_cons_self _ _) _) (by decide)]
      simp
    | cons t2 more2 =>
      have ihm := ih (fun x hx => hpv x (List.mem_cons_of_mem _ hx))
        (fun x hx => hstart x (List.mem_cons_of_mem _ hx)) (by simp) f
        (by simp at hfuel ⊢; omega)
      simp only [List.map_cons, joinMembers_cons_cons, List.append_assoc, List.cons_append]
      rw [readMembers_member pv f t.1 t.2.1 t.2.2 ','
        (joinMembers ((marshalString t2.1, t2.2.1) ::
          List.map (fun t => (marshalString t.1, t.2.1)) more2) ++ '}' :: rest)
        (hpv t (List.mem_cons_self _ _) _) (hstart t (List.mem_cons_self _ _) _) (by decide)]
      simp only [if_true]
      rw [skipSpace_joinMembers]
      simp only [List.map_cons] at ihm
      rw [ihm]
      rfl

theorem length_joinMembers (items : List (List Char × List Char)) :
    items.length ≤ (joinMembers items).length + 1 := by
  induction items with
  | nil => simp
  | cons m rest ih =>
    cases rest with
    | nil => simp [joinMembers]
    | cons m2 rest2 =>
      simp only [joinMembers_cons_cons, List.length_append, List.length_cons] at ih ⊢
      omega

/-- An encoded object with at least one member is parsed back, given that the parser with
one unit of fuel less reads each encoded value back. -/
theorem parseValue_object (fuel : Nat) (items : List (String × List Char × JValue))
    (hpv : ∀ t ∈ items, ∀ r : List Char, parseValue fuel (t.2.1 ++ r) = some (t.2.2, r))
    (hstart : ∀ t ∈ items, ∀ r : List Char, skipSpace (t.2.1 ++ r) = t.2.1 ++ r)
    (hne : items ≠ []) (rest : List Char) :
    parseValue (fuel + 1)
        ('{' :: (joinMembers (items.map (fun t => (marshalString t.1, t.2.1))) ++ ['}']) ++
          rest) =
      some (JValue.object (items.map (fun t => (t.1.data, t.2.2))), rest) := by
  obtain ⟨t, more, rfl⟩ : ∃ t more, items = t :: more := by
    cases items with
    | nil => exact absurd rfl hne
    | cons t more => exact ⟨t, more, rfl⟩
  have hskip := skipSpace_joinMembers t.1 t.2.1
    (more.map (fun t => (marshalString t.1, t.2.1))) ('}' :: rest)
  have hlen := length_joinMembers ((t :: more).map (fun t => (marshalString t.1, t.2.1)))
  have hread := readMembers_joinMembers (parseValue fuel) (t :: more) hpv hstart hne
    ((joinMembers ((t :: more).map (fun t => (marshalString t.1, t.2.1))) ++
      '}' :: rest).length + 1)
    (by simp only [List.length_map, List.length_append, List.length_cons] at hlen ⊢
        omega) rest
  obtain ⟨d, r, hd⟩ : ∃ d r, joinMembers ((t :: more).map
      (fun t => (marshalString t.1, t.2.1))) ++ '}' :: rest = d :: r := by
    cases more <;> simp [joinMembers, marshalString]
  have hdq : d = '"' := by
    cases more <;> simp [joinMembers, marshalString] at hd <;> exact hd.1.symm
  have e0 : '{' :: (joinMembers ((t :: more).map (fun t => (marshalString t.1, t.2.1))) ++
      ['}']) ++ rest =
      '{' :: (joinMembers ((t :: more).map (fun t => (marshalString t.1, t.2.1))) ++
        '}' :: rest) := by
    simp
  rw [e0]
  simp only [List.map_cons] at hskip hread hd ⊢
  simp only [parseValue, if_true]
  rw [hskip]
  rw [hd] at hread ⊢
  subst hdq
  simp only
  rw [if_neg (by decide), hread]
  rfl

/-! ## Keys, checkpoints and TaskSnapshots : what is written is decoded back -/

theorem skipSpace_marshalString (s : String) (rest : List Char) :
    skipSpace (marshalString s ++ rest) = marshalString s ++ rest := by
  simp [marshalString, skipSpace, isSpace]

theorem parseValue_marshalKey (fuel : Nat) (key : Key) (rest : List Char) :
    parseValue (fuel + 2) (marshalKey key ++ rest) = some (keyValue key, rest) := by
  have h := parseValue_object (fuel + 1)
    [("systemstreampartition-grouper-factory", marshalString key.GrouperFactory,
        JValue.string key.GrouperFactory.data),
      ("taskName", marshalString key.TaskName, JValue.string key.TaskName.data),
      ("type", marshalString key.Type_, JValue.string key.Type_.data)]
    (by
      intro t ht r
      simp only [List.mem_cons, List.mem_singleton, List.not_mem_nil, or_false] at ht
      rcases ht with rfl | rfl | rfl <;> exact parseValue_marshalString fuel _ r)
    (by
      intro t ht r
      simp only [List.mem_cons, List.mem_singleton, List.not_mem_nil, or_false] at ht
      rcases ht with rfl | rfl | rfl <;> exact skipSpace_marshalString _ r)
    (by simp) rest
  exact h

theorem parseValue_marshalCheckpoint (fuel : Nat) (cp : Checkpoint) (rest : List Char) :
    parseValue (fuel + 2) (marshalCheckpoint cp ++ rest) = some (checkpointValue cp, rest) := by
  have h := parseValue_object (fuel + 1)
    [("system", marshalString cp.System, JValue.string cp.System.data),
      ("partition", marshalString cp.Partition, JValue.string cp.Partition.data),
      ("offset", marshalString cp.Offset, JValue.string cp.Offset.data),
      ("stream", marshalString cp.Stream, JValue.string cp.Stream.data)]
    (by
      intro t ht r
      simp only [List.mem_cons, List.mem_singleton, List.not_mem_nil, or_false] at ht
      rcases ht with rfl | rfl | rfl | rfl <;> exact parseValue_marshalString fuel _ r)
    (by
      intro t ht r
      simp only [List.mem_cons, List.mem_singleton, List.not_mem_nil, or_false] at ht
      rcases ht with rfl | rfl | rfl | rfl <;> exact skipSpace_marshalString _ r)
    (by simp) rest
  exact h

theorem skipSpace_marshalCheckpoint (cp : Checkpoint) (rest : List Char) :
    skipSpace (marshalCheckpoint cp ++ rest) = marshalCheckpoint cp ++ rest := by
  simp [marshalCheckpoint, skipSpace, isSpace]

theorem parseValue_entries (fuel : Nat) (entries : List (String × Checkpoint))
    (rest : List Char) :
    parseValue (fuel + 3)
        ('{' :: (joinMembers (entries.map
          (fun e => (marshalString e.1, marshalCheckpoint e.2))) ++ ['}']) ++ rest) =
      some (JValue.object (entries.map (fun e => (e.1.data, checkpointValue e.2))), rest) := by
  cases hent : entries with
  | nil => simp [joinMembers, parseValue, skipSpace, isSpace]
  | cons e more =>
    rw [← hent]
    have h := parseValue_object (fuel + 2)
      (entries.map (fun e => (e.1, marshalCheckpoint e.2, checkpointValue e.2)))
      (by
        intro t ht r
        obtain ⟨e, -, rfl⟩ := List.mem_map.mp ht
        exact parseValue_marshalCheckpoint fuel e.2 r)
      (by
        intro t ht r
        obtain ⟨e, -, rfl⟩ := List.mem_map.mp ht
        exact skipSpace_marshalCheckpoint e.2 r)
      (by simp [hent]) rest
    simp only [List.map_map] at h
    exact h

theorem parseValue_marshalStreams (fuel : Nat) (streams : PartitionStreams)
    (rest : List Char) :
    parseValue (fuel + 3) (marshalStreams streams ++ rest) =
      some (JValue.object ((sortedEntries streams).map
        (fun e => (e.1.data, checkpointValue e.2))), rest) :=
  parseValue_entries fuel (sortedEntries streams) rest

theorem decodeKey_keyValue (key : Key) : decodeKey (keyValue key) = some key := by
  rfl

theorem decodeCheckpoint_checkpointValue (cp : Checkpoint) :
    decodeCheckpoint (checkpointValue cp) = some cp := by
  rfl

theorem decodeStreamsMembers_entries (entries : List (String × Checkpoint))
    (streams : PartitionStreams) :
    decodeStreamsMembers (entries.map (fun e => (e.1.data, checkpointValue e.2))) streams =
      some (entries.foldl (fun out e => out.insert e.1 e.2) streams) := by
  induction entries generalizing streams with
  | nil => rfl
  | cons e more ih =>
    simp only [List.map_cons, decodeStreamsMembers, decodeCheckpoint_checkpointValue,
      Option.some_bind, List.foldl_cons]
    exact ih _

/-- Decoding an encoded `Key` gives the `Key` back. -/
theorem unmarshallKey_marshalKey (key : Key) : unmarshallKey (marshalKey key) = some key := by
  have hskip : skipSpace (marshalKey key) = marshalKey key := by
    simp [marshalKey, skipSpace, isSpace]
  have hp := parseValue_marshalKey ((marshalKey key).length - 1) key []
  have hlen : (marshalKey key).length - 1 + 2 = (marshalKey key).length + 1 := by
    simp [marshalKey]
  rw [List.append_nil, hlen] at hp
  unfold unmarshallKey parseJSON
  rw [hskip, hp]
  simp only [skipSpace, if_true, Option.some_bind, decodeKey_keyValue]

/-- Decoding an encoded `PartitionStreams` gives a map with the sorted entries. -/
theorem unmarshallStreams_marshalStreams (streams : PartitionStreams) :
    unmarshallStreams (marshalStreams streams) =
      some ((sortedEntries streams).foldl (fun out e => out.insert e.1 e.2) GoMap.empty) := by
  have hskip : skipSpace (marshalStreams streams) = marshalStreams streams := by
    simp [marshalStreams, skipSpace, isSpace]
  have hp := parseValue_marshalStreams ((marshalStreams streams).length - 2) streams []
  have hlen : (marshalStreams streams).length - 2 + 3 = (marshalStreams streams).length + 1 := by
    simp [marshalStreams]
  rw [List.append_nil, hlen] at hp
  unfold unmarshallStreams parseJSON
  rw [hskip, hp]
  simp only [skipSpace, if_true, Option.some_bind, decodeStreams,
    decodeStreamsMembers_entries]

theorem lookupList_perm {K V : Type} [DecidableEq K] {l1 l2 : List (K × V)}
    (hp : l1.Perm l2) (hnd : (l1.map Prod.fst).Nodup) (k : K) :
    GoMap.lookupList k l1 = GoMap.lookupList k l2 := by
  have hnd2 : (l2.map Prod.fst).Nodup := (hp.map Prod.fst).nodup_iff.mp hnd
  apply Option.ext
  intro v
  rw [Option.mem_def, Option.mem_def, GoMap.lookupList_eq_some k v l1 hnd,
    GoMap.lookupList_eq_some k v l2 hnd2]
  exact hp.mem_iff

theorem sortedEntries_perm (streams : PartitionStreams) :
    (sortedEntries streams).Perm streams.entries :=
  List.perm_insertionSort _ _

/-- The map decoded from an encoded `PartitionStreams` has the entries of the original. -/
theorem unmarshallStreams_roundtrip (streams : PartitionStreams) :
    ∃ decoded : PartitionStreams, unmarshallStreams (marshalStreams streams) = some decoded ∧
      ∀ streamKey : String, decoded.lookup streamKey = streams.lookup streamKey := by
  refine ⟨_, unmarshallStreams_marshalStreams streams, ?_⟩
  intro sk
  have hnd : ((sortedEntries streams).map Prod.fst).Nodup :=
    ((sortedEntries_perm streams).map Prod.fst).nodup_iff.mpr streams.nodup
  rw [GoMap.lookup_foldl_entries _ hnd, GoMap.lookup_empty,
    lookupList_perm (sortedEntries_perm streams) hnd]
  unfold GoMap.lookup
  cases GoMap.lookupList sk streams.entries <;> rfl

/-! ## The encodings hold no tab and no newline -/

theorem noTabNewline_append (a b : List Char) :
    NoTabNewline (a ++ b) ↔ NoTabNewline a ∧ NoTabNewline b := by
  simp only [NoTabNewline, List.mem_append]
  constructor
  · intro h
    exact ⟨fun c hc => h c (Or.inl hc), fun c hc => h c (Or.inr hc)⟩
  · rintro ⟨ha, hb⟩ c (hc | hc)
    · exact ha c hc
    · exact hb c hc

theorem noTabNewline_cons (c : Char) (l : List Char) :
    NoTabNewline (c :: l) ↔ (c ≠ '\t' ∧ c ≠ '\n') ∧ NoTabNewline l := by
  simp only [NoTabNewline, List.mem_cons]
  constructor
  · intro h
    exact ⟨h c (Or.inl rfl), fun d hd => h d (Or.inr hd)⟩
  · rintro ⟨hc, hl⟩ d (hd | hd)
    · rw [hd]; exact hc
    · exact hl d hd

theorem noTabNewline_nil : NoTabNewline [] := by
  intro c hc
  simp at hc

theorem hexChar_clean (d : Nat) (h : d < 16) : hexChar d ≠ '\t' ∧ hexChar d ≠ '\n' := by
  revert d
  decide

theorem noTabNewline_escapeChar (c : Char) : NoTabNewline (escapeChar c) := by
  unfold escapeChar
  split_ifs with h1 h2 h3 h4 h5 h6
  · rcases h1 with h | h <;> subst h <;> simp [NoTabNewline]
  · simp [NoTabNewline]
  · simp [NoTabNewline]
  · simp [NoTabNewline]
  · have hlt : c.toNat < 256 := by
      rcases h5 with h | h | h | h
      · omega
      · subst h; decide
      · subst h; decide
      · subst h; decide
    have ha := hexChar_clean (c.toNat / 16) (by omega)
    have hb := hexChar_clean (c.toNat % 16) (by omega)
    simp [NoTabNewline, ha, hb]
  · have hb := hexChar_clean (c.toNat % 16) (by omega)
    simp [NoTabNewline, hb]
  · simp only [NoTabNewline, List.mem_singleton]
    rintro d rfl
    exact ⟨h4, h2⟩

theorem noTabNewline_escapeString (s : List Char) : NoTabNewline (escapeString s) := by
  induction s with
  | nil => exact noTabNewline_nil
  | cons c t ih =>
    simp only [escapeString, noTabNewline_append]
    exact ⟨noTabNewline_escapeChar c, ih⟩

theorem noTabNewline_marshalString (s : String) : NoTabNewline (marshalString s) := by
  simp only [marshalString, noTabNewline_cons, noTabNewline_append]
  exact ⟨by decide, noTabNewline_escapeString _, by decide, noTabNewline_nil⟩

theorem noTabNewline_joinMembers (items : List (List Char × List Char))
    (h : ∀ m ∈ items, NoTabNewline m.1 ∧ NoTabNewline m.2) :
    NoTabNewline (joinMembers items) := by
  induction items with
  | nil => exact noTabNewline_nil
  | cons m rest ih =>
    have hm := h m (List.mem_cons_self _ _)
    have hrest := ih (fun x hx => h x (List.mem_cons_of_mem _ hx))
    cases rest with
    | nil =>
      simp only [joinMembers, noTabNewline_append, noTabNewline_cons]
      exact ⟨hm.1, by decide, hm.2⟩
    | cons m2 rest2 =>
      simp only [joinMembers_cons_cons, noTabNewline_append, noTabNewline_cons]
      exact ⟨⟨hm.1, by decide, hm.2⟩, by decide, hrest⟩

theorem noTabNewline_object (items : List (List Char × List Char))
    (h : ∀ m ∈ items, NoTabNewline m.1 ∧ NoTabNewline m.2) :
    NoTabNewline ('{' :: (joinMembers items ++ ['}'])) := by
  simp only [noTabNewline_cons, noTabNewline_append]
  exact ⟨by decide, noTabNewline_joinMembers items h, by decide, noTabNewline_nil⟩

theorem noTabNewline_marshalKey (key : Key) : NoTabNewline (marshalKey key) := by
  apply noTabNewline_object
  intro m hm
  simp only [List.mem_cons, List.mem_singleton, List.not_mem_nil, or_false] at hm
  rcases hm with rfl | rfl | rfl <;>
    exact ⟨noTabNewline_marshalString _, noTabNewline_marshalString _⟩

theorem noTabNewline_marshalCheckpoint (cp : Checkpoint) :
    NoTabNewline (marshalCheckpoint cp) := by
  apply noTabNewline_object
  intro m hm
  simp only [List.mem_cons, List.mem_singleton, List.not_mem_nil, or_false] at hm
  rcases hm with rfl | rfl | rfl | rfl <;>
    exact ⟨noTabNewline_marshalString _, noTabNewline_marshalString _⟩

theorem noTabNewline_marshalStreams (streams : PartitionStreams) :
    NoTabNewline (marshalStreams streams) := by
  apply noTabNewline_object
  intro m hm
  obtain ⟨e, -, rfl⟩ := List.mem_map.mp hm
  exact ⟨noTabNewline_marshalString _, noTabNewline_marshalCheckpoint _⟩

/-! ## Lines and fields -/

theorem splitLines_line (line rest : List Char) (h : '\n' ∉ line) :
    splitLines (line ++ '\n' :: rest) = line :: splitLines rest := by
  induction line with
  | nil => simp [splitLines]
  | cons c t ih =>
    have hc : c ≠ '\n' := fun hc => h (by simp [hc])
    have ht : '\n' ∉ t := fun ht => h (List.mem_cons_of_mem _ ht)
    rw [List.cons_append]
    simp only [splitLines, hc, if_false]
    rw [ih ht]

theorem splitOn_no_sep (sep : Char) (field : List Char) (h : sep ∉ field) :
    splitOn sep field = [field] := by
  induction field with
  | nil => rfl
  | cons c t ih =>
    have hc : c ≠ sep := fun hc => h (by simp [hc])
    have ht : sep ∉ t := fun ht => h (List.mem_cons_of_mem _ ht)
    simp only [splitOn, hc, if_false]
    rw [ih ht]

theorem splitOn_field (sep : Char) (field rest : List Char) (h : sep ∉ field) :
    splitOn sep (field ++ sep :: rest) = field :: splitOn sep rest := by
  induction field with
  | nil => simp [splitOn]
  | cons c t ih =>
    have hc : c ≠ sep := fun hc => h (by simp [hc])
    have ht : sep ∉ t := fun ht => h (List.mem_cons_of_mem _ ht)
    rw [List.cons_append]
    simp only [splitOn, hc, if_false]
    rw [ih ht]

theorem not_mem_of_noTabNewline {text : List Char} (h : NoTabNewline text) :
    '\t' ∉ text ∧ '\n' ∉ text :=
  ⟨fun hm => (h _ hm).1 rfl, fun hm => (h _ hm).2 rfl⟩

theorem dropCR_fileLine (S : Checkpoints) (key : Key) :
    dropCR (fileLine S key) = fileLine S key := by
  have hlast : (fileLine S key).getLast? = some '}' := by
    have e : fileLine S key = (marshalKey key ++ '\t' :: '{' :: joinMembers
        ((sortedEntries (streamsAt S key)).map
          (fun e => (marshalString e.1, marshalCheckpoint e.2)))) ++ ['}'] := by
      simp [fileLine, marshalStreams]
    rw [e, List.getLast?_concat]
  unfold dropCR
  rw [hlast, if_neg (by decide)]

theorem splitOn_fileLine (S : Checkpoints) (key : Key) :
    splitOn '\t' (fileLine S key) = [marshalKey key, marshalStreams (streamsAt S key)] := by
  unfold fileLine
  rw [splitOn_field _ _ _ (not_mem_of_noTabNewline (noTabNewline_marshalKey key)).1,
    splitOn_no_sep _ _ (not_mem_of_noTabNewline (noTabNewline_marshalStreams _)).1]

theorem sprintf_line (a b : List Char) :
    Sprintf "%s\t%s\n".data [a, b] = a ++ '\t' :: b ++ ['\n'] := by
  simp [Sprintf, sprintfFrom]

theorem foldl_append_lines (f : Key → List Char) (keys : List Key) (acc : List Char) :
    keys.foldl (fun out key => out ++ f key) acc = acc ++ (keys.map f).flatten := by
  induction keys generalizing acc with
  | nil => simp
  | cons k rest ih => simp [ih]

theorem writeCheckpointsToFile_eq (S : Checkpoints) :
    writeCheckpointsToFile S = (S.keys.map (fun key => fileLine S key ++ ['\n'])).flatten := by
  unfold writeCheckpointsToFile
  have hfun : (fun (out : List Char) key =>
      out ++ Sprintf "%s\t%s\n".data [marshalKey key, marshalStreams (streamsAt S key)]) =
      (fun out key => out ++ (fileLine S key ++ ['\n'])) := by
    funext out key
    rw [sprintf_line]
    simp [fileLine]
  rw [hfun, foldl_append_lines, List.nil_append]

theorem splitLines_fileLines (S : Checkpoints) (keys : List Key) :
    splitLines ((keys.map (fun key => fileLine S key ++ ['\n'])).flatten) =
      keys.map (fileLine S) := by
  induction keys with
  | nil => rfl
  | cons k rest ih =>
    have hclean : '\n' ∉ fileLine S k := by
      have h1 := (not_mem_of_noTabNewline (noTabNewline_marshalKey k)).2
      have h2 := (not_mem_of_noTabNewline (noTabNewline_marshalStreams (streamsAt S k))).2
      simp [fileLine, h1, h2]
    simp only [List.map_cons, List.flatten_cons, List.append_assoc, List.singleton_append]
    rw [splitLines_line _ _ hclean, ih]

/-! ## File codec : writing, then reading -/

theorem readLines_accept (raw : List Char) (more : List (List Char))
    (checkpoints : Checkpoints) (a b : List Char) (rest : List (List Char)) (key : Key)
    (streams : PartitionStreams) (hfit : utf8Len raw < MaxScanTokenSize)
    (hsplit : splitOn '\t' (dropCR raw) = a :: b :: rest)
    (hkey : unmarshallKey a = some key) (hstreams : unmarshallStreams b = some streams) :
    readLines (raw :: more) checkpoints = readLines more (checkpoints.insert key streams) := by
  have hk : ¬ MaxScanTokenSize ≤ utf8Len raw := by omega
  simp only [readLines, hk, if_false, hsplit, List.getElem?_cons_zero, Option.getD_some,
    hkey, List.getElem?_cons_succ, hstreams]

theorem readLines_fileLines (S : Checkpoints) (keys : List Key)
    (hfit : ∀ key ∈ keys, utf8Len (fileLine S key) < MaxScanTokenSize)
    (checkpoints : Checkpoints) :
    readLines (keys.map (fileLine S)) checkpoints =
      Except.ok (keys.foldl
        (fun out key => out.insert key
          ((sortedEntries (streamsAt S key)).foldl (fun m e => m.insert e.1 e.2) GoMap.empty))
        checkpoints) := by
  induction keys generalizing checkpoints with
  | nil => rfl
  | cons k rest ih =>
    rw [List.map_cons, List.foldl_cons,
      readLines_accept (fileLine S k) _ checkpoints (marshalKey k)
        (marshalStreams (streamsAt S k)) [] k _ (hfit k (List.mem_cons_self _ _))
        (by rw [dropCR_fileLine, splitOn_fileLine]) (unmarshallKey_marshalKey k)
        (unmarshallStreams_marshalStreams _)]
    exact ih (fun key hkey => hfit key (List.mem_cons_of_mem _ hkey)) _

/-- Writing a snapshot whose lines fit the buffer of the scanner and reading the file back
gives a snapshot deep-equal to it. -/
theorem readCheckpointsFromFile_writeCheckpointsToFile (S : Checkpoints)
    (hfit : ∀ key ∈ S.keys, utf8Len (fileLine S key) < MaxScanTokenSize) :
    ∃ result : Checkpoints,
      readCheckpointsFromFile (writeCheckpointsToFile S) = Except.ok result ∧
      DeepEqual result S := by
  refine ⟨S.keys.foldl
    (fun out key => out.insert key
      ((sortedEntries (streamsAt S key)).foldl (fun m e => m.insert e.1 e.2) GoMap.empty))
    GoMap.empty, ?_, ?_⟩
  · unfold readCheckpointsFromFile
    rw [writeCheckpointsToFile_eq, splitLines_fileLines, readLines_fileLines S S.keys hfit]
  · have hl : ∀ k : Key, (S.keys.foldl
        (fun out key => out.insert key
          ((sortedEntries (streamsAt S key)).foldl (fun m e => m.insert e.1 e.2) GoMap.empty))
        (GoMap.empty : Checkpoints)).lookup k =
        if k ∈ S.keys then
          some ((sortedEntries (streamsAt S k)).foldl (fun m e => m.insert e.1 e.2) GoMap.empty)
        else none := by
      intro k
      have h := GoMap.lookup_foldl_step (fun _ => false)
        (fun _ key => (sortedEntries (streamsAt S key)).foldl
          (fun (m : PartitionStreams) e => m.insert e.1 e.2) GoMap.empty)
        S.keys S.nodup GoMap.empty k
      simp only [Bool.false_eq_true, if_false, and_true, GoMap.lookup_empty] at h
      exact h
    constructor
    · intro k
      rw [← GoMap.lookup_isSome, hl k]
      split <;> simp_all
    · intro k sk
      have e : ∀ R : Checkpoints, streamsAt R k = (R.lookup k).getD GoMap.empty :=
        fun _ => rfl
      rw [e, e, hl k]
      by_cases hmem : k ∈ S.keys
      · obtain ⟨streams, hs⟩ := Option.isSome_iff_exists.mp ((GoMap.lookup_isSome S k).mpr hmem)
        obtain ⟨decoded, hdec, hsame⟩ := unmarshallStreams_roundtrip streams
        rw [unmarshallStreams_marshalStreams] at hdec
        have e2 : streamsAt S k = streams := by simp [streamsAt, hs]
        simp only [hmem, if_true, hs, Option.getD_some, e2]
        rw [Option.some.inj hdec]
        exact hsame sk
      · have hn := (GoMap.lookup_eq_none S k).mpr hmem
        simp [hmem, hn]

set_option maxRecDepth 100000 in
/-- The snapshot of the tests is written and read back. -/
theorem readCheckpointsFromFile_writeCheckpointsToFile_witness :
    (∀ key ∈ createCheckpoints.keys,
      utf8Len (fileLine createCheckpoints key) < MaxScanTokenSize) ∧
    ∃ result : Checkpoints,
      readCheckpointsFromFile (writeCheckpointsToFile createCheckpoints) = Except.ok result ∧
      DeepEqual result createCheckpoints :=
  ⟨by decide, readCheckpointsFromFile_writeCheckpointsToFile createCheckpoints (by decide)⟩

/-! ## File codec : a line longer than the buffer of the scanner -/

theorem utf8Len_append (a b : List Char) : utf8Len (a ++ b) = utf8Len a + utf8Len b := by
  induction a with
  | nil => simp [utf8Len]
  | cons c t ih =>
    rw [List.cons_append]
    simp only [utf8Len, ih]
    omega

theorem length_le_utf8Len (a : List Char) : a.length ≤ utf8Len a := by
  induction a with
  | nil => simp [utf8Len]
  | cons c t ih =>
    have := c.utf8Size_pos
    simp only [utf8Len, List.length_cons]
    omega

theorem utf8Size_le_escapeChar (c : Char) : c.utf8Size ≤ utf8Len (escapeChar c) := by
  have h4 := c.utf8Size_le_four
  unfold escapeChar
  split_ifs with h1 h2 h3 h4 h5 h6
  · rcases h1 with h | h <;> subst h <;> decide
  · subst h2; decide
  · subst h3; decide
  · subst h4; decide
  · have := length_le_utf8Len
      ['\\', 'u', '0', '0', hexChar (c.toNat / 16), hexChar (c.toNat % 16)]
    simp only [List.length_cons, List.length_nil] at this
    omega
  · have := length_le_utf8Len ['\\', 'u', '2', '0', '2', hexChar (c.toNat % 16)]
    simp only [List.length_cons, List.length_nil] at this
    omega
  · simp [utf8Len]

theorem utf8Len_le_escapeString (s : List Char) : utf8Len s ≤ utf8Len (escapeString s) := by
  induction s with
  | nil => simp [utf8Len, escapeString]
  | cons c t ih =>
    have := utf8Size_le_escapeChar c
    simp only [utf8Len, escapeString, utf8Len_append]
    omega

theorem marshalKey_taskName (key : Key) :
    marshalKey key =
      ('{' :: (marshalString "systemstreampartition-grouper-factory" ++
        ':' :: marshalString key.GrouperFactory ++ ',' :: marshalString "taskName" ++
        [':', '"'])) ++
      (escapeString key.TaskName.data ++
        ('"' :: ',' :: (marshalString "type" ++ ':' :: marshalString key.Type_) ++ ['}'])) := by
  simp [marshalKey, joinMembers, marshalString]

theorem utf8Len_taskName_le_fileLine (S : Checkpoints) (key : Key) :
    utf8Len key.TaskName.data ≤ utf8Len (fileLine S key) := by
  have h := utf8Len_le_escapeString key.TaskName.data
  unfold fileLine
  rw [marshalKey_taskName, utf8Len_append, utf8Len_append, utf8Len_append]
  omega

/-- A line of the file with at least `MaxScanTokenSize` bytes ends the read without a
snapshot. -/
theorem readLines_tokenTooLong (lines : List (List Char)) (checkpoints : Checkpoints)
    (raw : List Char) (hraw : raw ∈ lines) (hlong : MaxScanTokenSize ≤ utf8Len raw) :
    ∃ e : ReadError, readLines lines checkpoints = Except.error e := by
  cases hres : readLines lines checkpoints with
  | error e => exact ⟨e, rfl⟩
  | ok result =>
    have := (readLines_ok hres raw hraw).1
    omega

theorem readLines_head_tokenTooLong (raw : List Char) (more : List (List Char))
    (checkpoints : Checkpoints) (hlong : MaxScanTokenSize ≤ utf8Len raw) :
    readLines (raw :: more) checkpoints = Except.error ReadError.tokenTooLong := by
  simp only [readLines, hlong, if_true]

theorem utf8Len_replicate (n : Nat) : utf8Len (List.replicate n 'a') = n := by
  induction n with
  | zero => rfl
  | succ n ih =>
    rw [List.replicate_succ]
    simp only [utf8Len, ih]
    have : 'a'.utf8Size = 1 := by decide
    omega

/-- C9. Written to a file, the snapshot with one task whose name has 65536 characters is
not read back : its line does not fit the buffer of the scanner, and the read ends in
`log.Fatal` on `bufio.ErrTooLong`. -/
theorem readCheckpointsFromFile_oversized :
    readCheckpointsFromFile (writeCheckpointsToFile oversizedSnapshot) =
      Except.error ReadError.tokenTooLong := by
  have hkeys : oversizedSnapshot.keys =
      [{ GrouperFactory := "org.apache.samza.container.grouper.stream.GroupByPartitionFactory"
         TaskName := String.mk (List.replicate MaxScanTokenSize 'a')
         Type_ := "checkpoint" }] := rfl
  have hlong := utf8Len_taskName_le_fileLine oversizedSnapshot
    { GrouperFactory := "org.apache.samza.container.grouper.stream.GroupByPartitionFactory"
      TaskName := String.mk (List.replicate MaxScanTokenSize 'a')
      Type_ := "checkpoint" }
  simp only [utf8Len_replicate] at hlong
  unfold readCheckpointsFromFile
  rw [writeCheckpointsToFile_eq, splitLines_fileLines, hkeys, List.map_cons,
    readLines_head_tokenTooLong _ _ _ hlong]

end CheckpointTool
